import Mathlib

/-
  Verification development for the reflcompare library: a reflection-driven
  structural three-way comparator for Go values.  The definitions below are a
  shallow embedding of src/reflcompare.go: Go types become the inductive `Ty`,
  runtime values become `Val`, `reflect.Value` (a value together with its
  addressability and read-only flag) becomes `RVal`, panics become the
  `GoPanic` error monad, and the recursion is made total with an explicit
  fuel parameter (running out of fuel models non-termination of the source).
-/

namespace Reflcompare

/-- Go type descriptors, as compared by `v1.Type() != v2.Type()`.  `invalid`
is the type of the zero `reflect.Value`; `named s` is a defined struct type
whose fields are given by a `StructEnv`; array length is part of the type. -/
inductive Ty where
  | invalid : Ty
  | int : Ty
  | uint : Ty
  | bool : Ty
  | str : Ty
  | cplx : Ty
  | fn (sig : Nat) : Ty
  | iface : Ty
  | ptr (elem : Ty) : Ty
  | slice (elem : Ty) : Ty
  | array (n : Nat) (elem : Ty) : Ty
  | mapT (key elem : Ty) : Ty
  | named (name : String) : Ty
deriving DecidableEq, Repr

/-- Go runtime values.  Pointers, slice data and map storage refer to numeric
cells; the contents of pointer cells live in a `Heap`, slice elements and map
entries are carried inline together with their data-pointer identity.
`vInvalid` is the invalid sentinel (the zero `reflect.Value`), `vCplx` stands
for the kinds handled by the default (equality-only) branch of the source. -/
inductive Val where
  | vInvalid : Val
  | vInt (i : Int) : Val
  | vUint (u : Nat) : Val
  | vBool (b : Bool) : Val
  | vStr (s : List Nat) : Val
  | vCplx (re im : Int) : Val
  | vFn (sig : Nat) (ref : Option Nat) : Val
  | vIface (inner : Option Val) : Val
  | vPtr (elem : Ty) (addr : Option Nat) : Val
  | vSlice (elem : Ty) (data : Option (Nat × List Val)) : Val
  | vArray (elem : Ty) (elems : List Val) : Val
  | vMap (key elem : Ty) (data : Option (Nat × List (Val × Val))) : Val
  | vStruct (name : String) (fields : List Val) : Val

/-- The type descriptor of a value (`reflect.Value.Type`). -/
def typeOf : Val → Ty
  | .vInvalid => .invalid
  | .vInt _ => .int
  | .vUint _ => .uint
  | .vBool _ => .bool
  | .vStr _ => .str
  | .vCplx _ _ => .cplx
  | .vFn sig _ => .fn sig
  | .vIface _ => .iface
  | .vPtr t _ => .ptr t
  | .vSlice t _ => .slice t
  | .vArray t es => .array es.length t
  | .vMap k e _ => .mapT k e
  | .vStruct n _ => .named n

/-- The `hard` predicate of the source: kinds whose comparisons are tracked
in the visited set (Array, Map, Slice, Struct). -/
def hard : Ty → Bool
  | .array _ _ => true
  | .mapT _ _ => true
  | .slice _ => true
  | .named _ => true
  | _ => false

/-- Validity of a value (`reflect.Value.IsValid`). -/
def isValid : Val → Bool
  | .vInvalid => false
  | _ => true

/-- Addresses of addressable storage: a heap cell id followed by the path of
field/element indices inside that cell. -/
abbrev Addr := List Nat

/-- Field tables of named struct types: for each field, whether it is
exported, and its declared type. -/
abbrev StructEnv := String → List (Bool × Ty)

/-- Pointer targets: cell id to stored value. -/
abbrev Heap := List (Nat × Val)

/-- The comparator registry (the `Comparisons` map of the source): exact type
descriptor to ordering function. -/
abbrev Comparisons := List (Ty × (Val → Val → Int))

/-- Dereference a heap cell; a missing cell yields the invalid value. -/
def heapAt : Heap → Nat → Val
  | [], _ => .vInvalid
  | (b, v) :: rest, a => if b = a then v else heapAt rest a

/-- Registry lookup by exact type descriptor. -/
def lookupC : Comparisons → Ty → Option (Val → Val → Int)
  | [], _ => none
  | (t0, g) :: rest, t => if t0 = t then some g else lookupC rest t

/-- Registry update: replace an existing entry for the type, else append. -/
def updateC : Comparisons → Ty → (Val → Val → Int) → Comparisons
  | [], t, g => [(t, g)]
  | (t0, g0) :: rest, t, g =>
    if t0 = t then (t, g) :: rest else (t0, g0) :: updateC rest t g

/-- A key of the visited set: canonicalized pair of addresses plus the type
(the `visit` struct of the source). -/
structure visit where
  a1 : Addr
  a2 : Addr
  typ : Ty
deriving DecidableEq, Repr

/-- The visited set, mapping visit keys to cached ordering signals. -/
abbrev Visited := List (visit × Int)

/-- Visited-set lookup. -/
def vFind : Visited → visit → Option Int
  | [], _ => none
  | (k0, r) :: rest, k => if k0 = k then some r else vFind rest k

/-- Visited-set insertion (Go map assignment: replace or add). -/
def vInsert : Visited → visit → Int → Visited
  | [], k, r => [(k, r)]
  | (k0, r0) :: rest, k, r =>
    if k0 = k then (k, r) :: rest else (k0, r0) :: vInsert rest k r

/-- Strict order on addresses, modelling the numeric `addr1 > addr2`
comparison of the source (any strict total order canonicalizes the pair). -/
def lexGt : Addr → Addr → Bool
  | _ :: _, [] => true
  | [], _ => false
  | a :: as, b :: bs => if b < a then true else if a < b then false else lexGt as bs

/-- Panics of the source, together with the out-of-fuel marker that models a
comparison which never terminates. -/
inductive GoPanic where
  | typeMismatch (t1 t2 : Ty) : GoPanic
  | unexported (chain : List Ty) : GoPanic
  | nonNilFuncs : GoPanic
  | uncomparable (t : Ty) : GoPanic
  | zeroValueType : GoPanic
  | outOfFuel : GoPanic
deriving DecidableEq, Repr

/-- Result of one comparison step: an ordering signal with the updated
visited set, or a panic. -/
abbrev Res := Except GoPanic (Int × Visited)

/-- A `reflect.Value`: the value, its address when it occupies addressable
storage (`CanAddr`/`UnsafeAddr`), and the read-only flag set after traversing
an unexported field (negation of `CanInterface`). -/
structure RVal where
  val : Val
  addr : Option Addr
  ro : Bool

/-- The comparator `compareBool` of the source: false orders before true. -/
def compareBool (b1 b2 : Bool) : Int :=
  if b1 then (if !b2 then 1 else 0) else (if b2 then -1 else 0)

/-- The comparator `compareInt64` of the source: direct comparison, no
subtraction. -/
def compareInt64 (i1 i2 : Int) : Int :=
  if i1 < i2 then -1 else if i2 < i1 then 1 else 0

/-- The comparator `compareUInt64` of the source. -/
def compareUInt64 (u1 u2 : Nat) : Int :=
  if u1 < u2 then -1 else if u2 < u1 then 1 else 0

/-- Lexicographic byte comparison (`strings.Compare`); Go strings are
modelled as byte lists. -/
def stringsCompare : List Nat → List Nat → Int
  | [], [] => 0
  | [], _ :: _ => -1
  | _ :: _, [] => 1
  | a :: as, b :: bs =>
    if a < b then -1 else if b < a then 1 else stringsCompare as bs

mutual

/-- Structural boolean equality of values, modelling the Go `==` operator on
interface values (used by the fallback branch and by map key lookup). -/
def valEqB : Val → Val → Bool
  | .vInvalid, .vInvalid => true
  | .vInt i, .vInt j => i == j
  | .vUint a, .vUint b => a == b
  | .vBool a, .vBool b => a == b
  | .vStr a, .vStr b => a == b
  | .vCplx a b, .vCplx c d => a == c && b == d
  | .vFn s1 r1, .vFn s2 r2 => s1 == s2 && r1 == r2
  | .vIface none, .vIface none => true
  | .vIface (some v), .vIface (some w) => valEqB v w
  | .vPtr t1 a1, .vPtr t2 a2 => t1 == t2 && a1 == a2
  | .vSlice t1 none, .vSlice t2 none => t1 == t2
  | .vSlice t1 (some (d1, es1)), .vSlice t2 (some (d2, es2)) =>
    t1 == t2 && d1 == d2 && valEqBL es1 es2
  | .vArray t1 es1, .vArray t2 es2 => t1 == t2 && valEqBL es1 es2
  | .vMap k1 e1 none, .vMap k2 e2 none => k1 == k2 && e1 == e2
  | .vMap k1 e1 (some (d1, ps1)), .vMap k2 e2 (some (d2, ps2)) =>
    k1 == k2 && e1 == e2 && d1 == d2 && valEqBP ps1 ps2
  | .vStruct n1 fs1, .vStruct n2 fs2 => n1 == n2 && valEqBL fs1 fs2
  | _, _ => false

/-- Elementwise equality of value lists. -/
def valEqBL : List Val → List Val → Bool
  | [], [] => true
  | v :: vs, w :: ws => valEqB v w && valEqBL vs ws
  | _, _ => false

/-- Elementwise equality of key-value entry lists. -/
def valEqBP : List (Val × Val) → List (Val × Val) → Bool
  | [], [] => true
  | (k1, v1) :: ps, (k2, v2) :: qs => valEqB k1 k2 && valEqB v1 v2 && valEqBP ps qs
  | _, _ => false

end

/-- The fallback `compareInterface` of the source: plain equality, else a
panic naming the dynamic type. -/
def compareInterface (v1 v2 : Val) : Except GoPanic Int :=
  if valEqB v1 v2 then .ok 0 else .error (.uncomparable (typeOf v1))

/-- Effect of the `makeUsefulPanic` deferred handler: an unexported-field
panic unwinding through this frame gets the frame's type prepended to its
chain; everything else passes through. -/
def usefulPanic (t : Ty) : Res → Res
  | .error (.unexported chain) => .error (.unexported (t :: chain))
  | r => r

/-- Type of the one-step comparison continuation threaded through the
structural rules. -/
abbrev Cmp := RVal → RVal → Visited → Res

/-- The element-by-element loop shared by the array, slice, struct and map
branches of the source: compare pairs in order, threading the visited set,
returning the first nonzero signal (or the first panic). -/
def compareListWith (f : Cmp) : List (RVal × RVal) → Visited → Res
  | [], visited => .ok (0, visited)
  | (x, y) :: rest, visited =>
    match f x y visited with
    | .ok (r, vis) => if r = 0 then compareListWith f rest vis else .ok (r, vis)
    | .error e => .error e

/-- Address of the i-th component inside (possibly non-addressable)
storage. -/
def extAddr (o : Option Addr) (i : Nat) : Option Addr :=
  o.map (fun a => a ++ [i])

/-- Index-aligned pairs of array elements (`v1.Index(i)`, `v2.Index(i)`):
array elements inherit the addressability and read-only flag of the array. -/
def elemPairs (rv1 rv2 : RVal) : List Val → List Val → Nat → List (RVal × RVal)
  | v1 :: t1, v2 :: t2, i =>
    (⟨v1, extAddr rv1.addr i, rv1.ro⟩, ⟨v2, extAddr rv2.addr i, rv2.ro⟩)
      :: elemPairs rv1 rv2 t1 t2 (i + 1)
  | _, _, _ => []

/-- Index-aligned pairs of struct fields (`v1.Field(i)`, `v2.Field(i)`):
fields inherit addressability, and traversing a non-exported field sets the
read-only flag on the field value. -/
def fieldPairs (rv1 rv2 : RVal) :
    List Val → List Val → List (Bool × Ty) → Nat → List (RVal × RVal)
  | v1 :: t1, v2 :: t2, (exp, _) :: tf, i =>
    (⟨v1, extAddr rv1.addr i, rv1.ro || !exp⟩, ⟨v2, extAddr rv2.addr i, rv2.ro || !exp⟩)
      :: fieldPairs rv1 rv2 t1 t2 tf (i + 1)
  | _, _, _, _ => []

/-- Index-aligned pairs of slice elements: slice elements are always
addressable, located at the data pointer plus the index. -/
def slicePairs (ro1 ro2 : Bool) (d1 d2 : Nat) :
    List Val → List Val → Nat → List (RVal × RVal)
  | v1 :: t1, v2 :: t2, i =>
    (⟨v1, some [d1, i], ro1⟩, ⟨v2, some [d2, i], ro2⟩)
      :: slicePairs ro1 ro2 d1 d2 t1 t2 (i + 1)
  | _, _, _ => []

/-- Go map lookup by key equality (`v.MapIndex(k)`): a missing key yields the
invalid value. -/
def mapAt : List (Val × Val) → Val → Val
  | [], _ => .vInvalid
  | (k0, v0) :: rest, k => if valEqB k0 k then v0 else mapAt rest k

/-- Pairs of map values under the keys of the first map, in its iteration
order; map values are never addressable. -/
def mapPairs (ro1 ro2 : Bool) (es1 es2 : List (Val × Val)) : List (RVal × RVal) :=
  es1.map (fun p => (⟨mapAt es1 p.1, none, ro1⟩, ⟨mapAt es2 p.1, none, ro2⟩))

/-- Nil-or-empty test of the slice branch: `v.IsNil() || v.Len() == 0`. -/
def sliceNilOrEmpty : Option (Nat × List Val) → Bool
  | none => true
  | some (_, es) => es.isEmpty

/-- Length of a slice (`v.Len()`; a nil slice has length zero). -/
def sliceLen : Option (Nat × List Val) → Nat
  | none => 0
  | some (_, es) => es.length

/-- Data pointer of a slice (`v.Pointer()`; zero for a nil slice). -/
def slicePtr : Option (Nat × List Val) → Nat
  | none => 0
  | some (d, _) => d

/-- Elements of a slice. -/
def sliceElems : Option (Nat × List Val) → List Val
  | none => []
  | some (_, es) => es

/-- Nil-or-empty test of the map branch. -/
def mapNilOrEmpty : Option (Nat × List (Val × Val)) → Bool
  | none => true
  | some (_, es) => es.isEmpty

/-- Number of entries of a map (`v.Len()`). -/
def mapLen : Option (Nat × List (Val × Val)) → Nat
  | none => 0
  | some (_, es) => es.length

/-- Storage identity of a map (`v.Pointer()`; zero for a nil map). -/
def mapPtr : Option (Nat × List (Val × Val)) → Nat
  | none => 0
  | some (d, _) => d

/-- Entry list of a map in iteration order. -/
def mapEntries : Option (Nat × List (Val × Val)) → List (Val × Val)
  | none => []
  | some (_, es) => es

/-- Dereference an interface value (`v.Elem()`): never addressable, the
read-only flag propagates; a nil interface yields the invalid value. -/
def ifaceElem (ro : Bool) : Option Val → RVal
  | some v => ⟨v, none, ro⟩
  | none => ⟨.vInvalid, none, ro⟩

/-- Dereference a pointer (`v.Elem()`): the pointee occupies addressable
storage at the cell address; a nil pointer yields the invalid value. -/
def ptrElem (heap : Heap) (ro : Bool) : Option Nat → RVal
  | some a => ⟨heapAt heap a, some [a], ro⟩
  | none => ⟨.vInvalid, none, ro⟩

/-- The kind dispatch (the `switch v1.Kind()` of `deepValueCompare`): one
structural rule per shape, with the recursion abstracted as `f`.  Both values
are known to be valid and of the same type descriptor here, so they carry the
same constructor; the final catch-all duplicates the impossible mismatch as a
type-mismatch panic. -/
def dispatchCompare (env : StructEnv) (heap : Heap) (f : Cmp)
    (rv1 rv2 : RVal) (visited : Visited) : Res :=
  match rv1.val, rv2.val with
  | .vArray _ es1, .vArray _ es2 =>
    compareListWith f (elemPairs rv1 rv2 es1 es2 0) visited
  | .vSlice _ o1, .vSlice _ o2 =>
    if sliceNilOrEmpty o1 ≠ sliceNilOrEmpty o2 then .ok (0, visited)
    else if (sliceLen o1 : Int) - (sliceLen o2 : Int) ≠ 0 then
      .ok ((sliceLen o1 : Int) - (sliceLen o2 : Int), visited)
    else if slicePtr o1 = slicePtr o2 then .ok (0, visited)
    else
      compareListWith f
        (slicePairs rv1.ro rv2.ro (slicePtr o1) (slicePtr o2)
          (sliceElems o1) (sliceElems o2) 0) visited
  | .vIface o1, .vIface o2 =>
    let r := compareBool o1.isSome o2.isSome
    if r ≠ 0 then .ok (r, visited)
    else f (ifaceElem rv1.ro o1) (ifaceElem rv2.ro o2) visited
  | .vPtr _ o1, .vPtr _ o2 =>
    f (ptrElem heap rv1.ro o1) (ptrElem heap rv2.ro o2) visited
  | .vStruct n fs1, .vStruct _ fs2 =>
    compareListWith f (fieldPairs rv1 rv2 fs1 fs2 (env n) 0) visited
  | .vMap _ _ o1, .vMap _ _ o2 =>
    if mapNilOrEmpty o1 ≠ mapNilOrEmpty o2 then .ok (0, visited)
    else if (mapLen o1 : Int) - (mapLen o2 : Int) ≠ 0 then
      .ok ((mapLen o1 : Int) - (mapLen o2 : Int), visited)
    else if mapPtr o1 = mapPtr o2 then .ok (0, visited)
    else
      compareListWith f (mapPairs rv1.ro rv2.ro (mapEntries o1) (mapEntries o2)) visited
  | .vFn _ o1, .vFn _ o2 =>
    if o1.isSome && o2.isSome then .error .nonNilFuncs
    else .ok (compareBool o1.isSome o2.isSome, visited)
  | .vBool b1, .vBool b2 => .ok (compareBool b1 b2, visited)
  | .vUint u1, .vUint u2 => .ok (compareUInt64 u1 u2, visited)
  | .vInt i1, .vInt i2 => .ok (compareInt64 i1 i2, visited)
  | .vStr s1, .vStr s2 => .ok (stringsCompare s1 s2, visited)
  | .vCplx _ _, .vCplx _ _ =>
    if rv1.ro || rv2.ro then .error (.unexported [])
    else
      match compareInterface rv1.val rv2.val with
      | .ok r => .ok (r, visited)
      | .error e => .error e
  | _, _ => .error (.typeMismatch (typeOf rv1.val) (typeOf rv2.val))

/-- The reference-identity and visited-set block of the source, entered when
both operands occupy addressable storage and the kind is hard: canonicalize
the two addresses, short-circuit on identity or on a cached signal, else run
the structural comparison and record its result afterwards (negated when the
addresses had to be swapped), exactly as the deferred write of the source. -/
def hardStep (env : StructEnv) (heap : Heap) (f : Cmp) (t : Ty) (x1 x2 : Addr)
    (rv1 rv2 : RVal) (visited : Visited) : Res :=
  let sw := lexGt x1 x2
  let b1 := if sw then x2 else x1
  let b2 := if sw then x1 else x2
  if b1 = b2 then .ok (0, visited)
  else
    match vFind visited ⟨b1, b2, t⟩ with
    | some r => .ok (r, visited)
    | none =>
      match dispatchCompare env heap f rv1 rv2 visited with
      | .ok (r, vis) => .ok (r, vInsert vis ⟨b1, b2, t⟩ (if sw then -r else r))
      | .error e => .error e

/-- One step of `deepValueCompare` without the fuel bookkeeping: validity
check, type identity, registry override, the reference-identity and visited
short-circuits for addressable hard kinds (with the source's deferred
caching of the result after the structural comparison returns), then the
kind dispatch. -/
def stepCompare (c : Comparisons) (env : StructEnv) (heap : Heap) (f : Cmp)
    (rv1 rv2 : RVal) (visited : Visited) : Res :=
  if !isValid rv1.val || !isValid rv2.val then
    .ok (compareBool (isValid rv1.val) (isValid rv2.val), visited)
  else if typeOf rv1.val = typeOf rv2.val then
    match lookupC c (typeOf rv1.val) with
    | some g => .ok (g rv1.val rv2.val, visited)
    | none =>
      match hard (typeOf rv1.val), rv1.addr, rv2.addr with
      | true, some x1, some x2 =>
        hardStep env heap f (typeOf rv1.val) x1 x2 rv1 rv2 visited
      | _, _, _ => dispatchCompare env heap f rv1 rv2 visited
  else .error (.typeMismatch (typeOf rv1.val) (typeOf rv2.val))

/-- The recursive engine `deepValueCompare` of the source, made total with a
fuel parameter: each recursive call of the source consumes one unit, and
exhausted fuel models a comparison that never returns. -/
def deepValueCompare (c : Comparisons) (env : StructEnv) (heap : Heap) :
    Nat → RVal → RVal → Visited → Res
  | 0, _, _, _ => .error .outOfFuel
  | fuel + 1, rv1, rv2, visited =>
    usefulPanic (typeOf rv1.val)
      (stepCompare c env heap
        (fun a b vis => deepValueCompare c env heap fuel a b vis) rv1 rv2 visited)

/-- The entry point `DeepCompare` of the source: top-level arguments are
interface values (`none` is the untyped nil interface); nil-ness is compared
first, then the dynamic types must agree, then the engine runs with a fresh
visited set.  Calling `Type()` on the zero value (both arguments nil) panics
in `reflect`. -/
def DeepCompare (c : Comparisons) (env : StructEnv) (heap : Heap) (fuel : Nat)
    (a1 a2 : Option Val) : Except GoPanic Int :=
  if compareBool a1.isNone a2.isNone ≠ 0 then .ok (compareBool a1.isNone a2.isNone)
  else
    match a1, a2 with
    | some v1, some v2 =>
      if typeOf v1 = typeOf v2 then
        (deepValueCompare c env heap fuel ⟨v1, none, false⟩ ⟨v2, none, false⟩ []).map
          (fun p => p.1)
      else .error (.typeMismatch (typeOf v1) (typeOf v2))
    | _, _ => .error .zeroValueType

/-- A candidate comparison function handed to `AddFunc`: the shape of its
runtime type (whether it is a function, its parameter and result types) and
the ordering function it evaluates to. -/
structure Candidate where
  isFunc : Bool
  ins : List Ty
  outs : List Ty
  fn : Val → Val → Int

/-- Validation errors of `AddFunc`, one distinct error per violated rule. -/
inductive AddErr where
  | notFunc : AddErr
  | badNumIn : AddErr
  | badNumOut : AddErr
  | argMismatch : AddErr
  | badReturn : AddErr
deriving DecidableEq, Repr

/-- The `AddFunc` registration of the source: validate the candidate's shape
(func kind, two parameters, one result, identical parameter types, `int`
result), then store it keyed by the parameter type; on a validation error the
registry is returned unchanged. -/
def AddFunc (c : Comparisons) (f : Candidate) : Comparisons × Option AddErr :=
  if !f.isFunc then (c, some .notFunc)
  else if f.ins.length ≠ 2 then (c, some .badNumIn)
  else if f.outs.length ≠ 1 then (c, some .badNumOut)
  else if f.ins.getD 0 .invalid ≠ f.ins.getD 1 .invalid then (c, some .argMismatch)
  else if f.outs.getD 0 .invalid ≠ .int then (c, some .badReturn)
  else (updateC c (f.ins.getD 0 .invalid) f.fn, none)

/-- The batch registration `AddFuncs` of the source: apply `AddFunc` in
order, stopping at the first validation error and keeping the registrations
made so far. -/
def AddFuncs (c : Comparisons) : List Candidate → Comparisons × Option AddErr
  | [] => (c, none)
  | f :: fs =>
    match AddFunc c f with
    | (c1, none) => AddFuncs c1 fs
    | (c1, some e) => (c1, some e)

/-- The constructor `NewComparisons` of the source: build a fresh registry
from the list; on any validation error it returns no registry (Go `nil`)
together with the error. -/
def NewComparisons (fs : List Candidate) : Option Comparisons × Option AddErr :=
  match AddFuncs [] fs with
  | (_, some e) => (none, some e)
  | (c, none) => (some c, none)

/-- The constructor `NewComparisonsOrDie` of the source: like
`NewComparisons` but a validation error becomes a panic (modelled as the
error side of `Except`). -/
def NewComparisonsOrDie (fs : List Candidate) : Except AddErr Comparisons :=
  match NewComparisons fs with
  | (_, some e) => .error e
  | (some c, none) => .ok c
  | (none, none) => .ok []

mutual

/-- Fuel sufficient to fully traverse a value when it is compared against
itself: one unit per engine call along the deepest self-comparison path
(pointer, slice and map self-comparisons short-circuit after one step). -/
def szv : Val → Nat
  | .vIface none => 2
  | .vIface (some v) => szv v + 1
  | .vPtr _ _ => 2
  | .vArray _ es => szvL es + 1
  | .vStruct _ fs => szvL fs + 1
  | _ => 1

/-- Fuel sufficient for the deepest element of a list. -/
def szvL : List Val → Nat
  | [] => 1
  | v :: vs => max (szv v) (szvL vs)

end

mutual

/-- Values whose comparison against themselves yields zero rather than a
panic: no non-nil callable is reachable outside of pointees, slice elements
and map entries (those are short-circuited in a self-comparison), and no
fallback-kind (`vCplx`) value sits behind a non-exported field, where the
read-only flag `ro` would make the engine panic. -/
def selfOk (env : StructEnv) : Bool → Val → Bool
  | ro, .vCplx _ _ => !ro
  | _, .vFn _ r => r.isNone
  | ro, .vIface (some v) => selfOk env ro v
  | ro, .vArray _ es => selfOkL env ro es
  | ro, .vStruct n fs => selfOkF env ro fs (env n)
  | _, _ => true

/-- Elementwise `selfOk` for array elements. -/
def selfOkL (env : StructEnv) : Bool → List Val → Bool
  | _, [] => true
  | ro, v :: vs => selfOk env ro v && selfOkL env ro vs

/-- Fieldwise `selfOk` for struct fields: a non-exported field raises the
read-only flag on the field value. -/
def selfOkF (env : StructEnv) : Bool → List Val → List (Bool × Ty) → Bool
  | _, [], _ => true
  | _, _ :: _, [] => true
  | ro, v :: vs, (exp, _) :: tf => selfOk env (ro || !exp) v && selfOkF env ro vs tf

end

/-- Heap cells whose self-comparison terminates in one step once
dereferenced: anything but a pointer, an interface, a fallback-kind value or
a non-nil callable (hard kinds stop at the address identity check, scalars
compare directly). -/
def cellOk : Val → Bool
  | .vCplx _ _ => false
  | .vPtr _ _ => false
  | .vIface _ => false
  | .vFn _ r => r.isNone
  | _ => true

/-- All heap cells satisfy `cellOk`. -/
def heapSelfOk : Heap → Bool
  | [] => true
  | (_, v) :: rest => cellOk v && heapSelfOk rest

mutual

/-- Values containing no key-value container anywhere in their tree. -/
def mapFree : Val → Bool
  | .vMap _ _ _ => false
  | .vIface (some v) => mapFree v
  | .vArray _ es => mapFreeL es
  | .vStruct _ fs => mapFreeL fs
  | .vSlice _ (some (_, es)) => mapFreeL es
  | _ => true

/-- Elementwise `mapFree`. -/
def mapFreeL : List Val → Bool
  | [] => true
  | v :: vs => mapFree v && mapFreeL vs

end

/-- All heap cells are map-free. -/
def heapMapFree : Heap → Bool
  | [] => true
  | (_, v) :: rest => mapFree v && heapMapFree rest

/-- All cached signals in a visited set are zero. -/
def allZero : Visited → Bool
  | [] => true
  | (_, r) :: rest => decide (r = 0) && allZero rest

theorem compareBool_self (b : Bool) : compareBool b b = 0 := by
  cases b <;> rfl

theorem compareBool_anti (b1 b2 : Bool) : compareBool b2 b1 = -compareBool b1 b2 := by
  cases b1 <;> cases b2 <;> rfl

theorem compareInt64_self (i : Int) : compareInt64 i i = 0 := by
  simp [compareInt64]

theorem compareInt64_anti (i1 i2 : Int) : compareInt64 i2 i1 = -compareInt64 i1 i2 := by
  unfold compareInt64
  rcases lt_trichotomy i1 i2 with h | h | h
  · simp [h, not_lt.mpr (le_of_lt h)]
  · simp [h, lt_irrefl]
  · simp [h, not_lt.mpr (le_of_lt h)]

theorem compareUInt64_self (u : Nat) : compareUInt64 u u = 0 := by
  simp [compareUInt64]

theorem compareUInt64_anti (u1 u2 : Nat) : compareUInt64 u2 u1 = -compareUInt64 u1 u2 := by
  unfold compareUInt64
  rcases lt_trichotomy u1 u2 with h | h | h
  · simp [h, Nat.not_lt.mpr (Nat.le_of_lt h)]
  · simp [h, lt_irrefl]
  · simp [h, Nat.not_lt.mpr (Nat.le_of_lt h)]

theorem stringsCompare_self (s : List Nat) : stringsCompare s s = 0 := by
  induction s with
  | nil => rfl
  | cons a as ih => simp [stringsCompare, ih]

theorem stringsCompare_anti (s1 s2 : List Nat) :
    stringsCompare s2 s1 = -stringsCompare s1 s2 := by
  induction s1 generalizing s2 with
  | nil => cases s2 <;> rfl
  | cons a as ih =>
    cases s2 with
    | nil => rfl
    | cons b bs =>
      unfold stringsCompare
      rcases lt_trichotomy a b with h | h | h
      · simp [h, Nat.not_lt.mpr (Nat.le_of_lt h)]
      · simp [h, lt_irrefl, ih]
      · simp [h, Nat.not_lt.mpr (Nat.le_of_lt h)]

theorem lexGt_irrefl (a : Addr) : lexGt a a = false := by
  induction a with
  | nil => rfl
  | cons x xs ih => simp [lexGt, ih]

theorem lexGt_asymm (a b : Addr) (h : lexGt a b = true) : lexGt b a = false := by
  induction a generalizing b with
  | nil => simp [lexGt] at h
  | cons x xs ih =>
    cases b with
    | nil => rfl
    | cons y ys =>
      simp only [lexGt] at h ⊢
      rcases lt_trichotomy x y with hxy | hxy | hxy
      · simp [hxy, Nat.not_lt.mpr (Nat.le_of_lt hxy)] at h
      · subst hxy
        simp only [lt_irrefl, if_false] at h ⊢
        exact ih ys h
      · simp [hxy, Nat.not_lt.mpr (Nat.le_of_lt hxy)]

theorem lexGt_connex (a b : Addr) (h1 : lexGt a b = false) (h2 : lexGt b a = false) :
    a = b := by
  induction a generalizing b with
  | nil =>
    cases b with
    | nil => rfl
    | cons y ys => simp [lexGt] at h2
  | cons x xs ih =>
    cases b with
    | nil => simp [lexGt] at h1
    | cons y ys =>
      simp only [lexGt] at h1 h2
      rcases lt_trichotomy x y with hxy | hxy | hxy
      · simp [hxy, Nat.not_lt.mpr (Nat.le_of_lt hxy)] at h2
      · subst hxy
        simp only [lt_irrefl, if_false] at h1 h2
        rw [ih ys h1 h2]
      · simp [hxy, Nat.not_lt.mpr (Nat.le_of_lt hxy)] at h1

theorem cellOk_heapAt (h : Heap) (hh : heapSelfOk h = true) (a : Nat) :
    cellOk (heapAt h a) = true := by
  induction h with
  | nil => rfl
  | cons p rest ih =>
    obtain ⟨b, v⟩ := p
    simp only [heapSelfOk, Bool.and_eq_true] at hh
    simp only [heapAt]
    by_cases hba : b = a
    · simp [hba, hh.1]
    · simp [hba, ih hh.2]

theorem mapFree_heapAt (h : Heap) (hh : heapMapFree h = true) (a : Nat) :
    mapFree (heapAt h a) = true := by
  induction h with
  | nil => rfl
  | cons p rest ih =>
    obtain ⟨b, v⟩ := p
    simp only [heapMapFree, Bool.and_eq_true] at hh
    simp only [heapAt]
    by_cases hba : b = a
    · simp [hba, hh.1]
    · simp [hba, ih hh.2]

theorem deepValueCompare_succ (c : Comparisons) (env : StructEnv) (heap : Heap)
    (f : Nat) (rv1 rv2 : RVal) (vis : Visited) :
    deepValueCompare c env heap (f + 1) rv1 rv2 vis
      = usefulPanic (typeOf rv1.val)
          (stepCompare c env heap
            (fun a b v => deepValueCompare c env heap f a b v) rv1 rv2 vis) := by
  simp only [deepValueCompare]

theorem usefulPanic_ok (t : Ty) (p : Int × Visited) :
    usefulPanic t (.ok p) = .ok p := rfl

theorem lookupC_nil (t : Ty) : lookupC [] t = none := rfl

theorem stepCompare_not_hard (c : Comparisons) (env : StructEnv) (heap : Heap)
    (f : Cmp) (rv1 rv2 : RVal) (vis : Visited)
    (h1 : isValid rv1.val = true) (h2 : isValid rv2.val = true)
    (h3 : typeOf rv1.val = typeOf rv2.val)
    (h4 : lookupC c (typeOf rv1.val) = none)
    (h5 : hard (typeOf rv1.val) = false) :
    stepCompare c env heap f rv1 rv2 vis = dispatchCompare env heap f rv1 rv2 vis := by
  have h4' := h4
  have h5' := h5
  rw [h3] at h4' h5'
  simp [stepCompare, h1, h2, h3, h4, h4', h5, h5']

theorem stepCompare_self_addr (c : Comparisons) (env : StructEnv) (heap : Heap)
    (f : Cmp) (rv1 rv2 : RVal) (vis : Visited) (x : Addr)
    (h1 : isValid rv1.val = true) (h2 : isValid rv2.val = true)
    (h3 : typeOf rv1.val = typeOf rv2.val)
    (h4 : lookupC c (typeOf rv1.val) = none)
    (hh : hard (typeOf rv1.val) = true)
    (ha1 : rv1.addr = some x) (ha2 : rv2.addr = some x) :
    stepCompare c env heap f rv1 rv2 vis = .ok (0, vis) := by
  have h4' := h4
  have hh' := hh
  rw [h3] at h4' hh'
  simp [stepCompare, hardStep, h1, h2, h3, h4, h4', hh, hh', ha1, ha2, lexGt_irrefl]

theorem stepCompare_hard_no_addr (c : Comparisons) (env : StructEnv) (heap : Heap)
    (f : Cmp) (rv1 rv2 : RVal) (vis : Visited)
    (h1 : isValid rv1.val = true) (h2 : isValid rv2.val = true)
    (h3 : typeOf rv1.val = typeOf rv2.val)
    (h4 : lookupC c (typeOf rv1.val) = none)
    (hh : hard (typeOf rv1.val) = true)
    (ha1 : rv1.addr = none) :
    stepCompare c env heap f rv1 rv2 vis = dispatchCompare env heap f rv1 rv2 vis := by
  have h4' := h4
  have hh' := hh
  rw [h3] at h4' hh'
  simp [stepCompare, h1, h2, h3, h4, h4', hh, hh', ha1]

theorem compareListWith_allZero (g : Cmp) (ps : List (RVal × RVal))
    (h : ∀ p ∈ ps, ∀ vis, g p.1 p.2 vis = .ok (0, vis)) (vis : Visited) :
    compareListWith g ps vis = .ok (0, vis) := by
  induction ps with
  | nil => rfl
  | cons p rest ih =>
    obtain ⟨x, y⟩ := p
    simp only [compareListWith]
    rw [h ⟨x, y⟩ (by simp) vis]
    simp only [if_pos rfl]
    exact ih (fun q hq v => h q (by simp [hq]) v)


theorem szv_pos (v : Val) : 1 ≤ szv v := by
  cases v
  case vIface o => cases o <;> simp [szv]
  all_goals simp [szv]

theorem cellSelfZero (env : StructEnv) (heap : Heap) (c : Val) (hc : cellOk c = true)
    (f : Nat) (hf : 1 ≤ f) (x : Addr) (ro : Bool) (vis : Visited) :
    deepValueCompare [] env heap f ⟨c, some x, ro⟩ ⟨c, some x, ro⟩ vis = .ok (0, vis) := by
  obtain ⟨f, rfl⟩ : ∃ g, f = g + 1 := ⟨f - 1, by omega⟩
  rw [deepValueCompare_succ]
  cases c with
  | vInvalid => simp [stepCompare, isValid, compareBool, usefulPanic]
  | vInt i =>
    rw [stepCompare_not_hard [] env heap _ ⟨.vInt i, some x, ro⟩ ⟨.vInt i, some x, ro⟩ vis
      rfl rfl rfl rfl rfl]
    simp [dispatchCompare, compareInt64_self, usefulPanic]
  | vUint u =>
    rw [stepCompare_not_hard [] env heap _ ⟨.vUint u, some x, ro⟩ ⟨.vUint u, some x, ro⟩ vis
      rfl rfl rfl rfl rfl]
    simp [dispatchCompare, compareUInt64_self, usefulPanic]
  | vBool b =>
    rw [stepCompare_not_hard [] env heap _ ⟨.vBool b, some x, ro⟩ ⟨.vBool b, some x, ro⟩ vis
      rfl rfl rfl rfl rfl]
    simp [dispatchCompare, compareBool_self, usefulPanic]
  | vStr s =>
    rw [stepCompare_not_hard [] env heap _ ⟨.vStr s, some x, ro⟩ ⟨.vStr s, some x, ro⟩ vis
      rfl rfl rfl rfl rfl]
    simp [dispatchCompare, stringsCompare_self, usefulPanic]
  | vCplx a b => simp [cellOk] at hc
  | vPtr t a => simp [cellOk] at hc
  | vIface o => simp [cellOk] at hc
  | vFn sig r =>
    cases r with
    | some y => simp [cellOk] at hc
    | none =>
      rw [stepCompare_not_hard [] env heap _ ⟨.vFn sig none, some x, ro⟩
        ⟨.vFn sig none, some x, ro⟩ vis rfl rfl rfl rfl rfl]
      simp [dispatchCompare, compareBool, usefulPanic]
  | vSlice t d =>
    rw [stepCompare_self_addr [] env heap _ ⟨.vSlice t d, some x, ro⟩ ⟨.vSlice t d, some x, ro⟩
      vis x rfl rfl rfl rfl rfl rfl rfl]
    exact usefulPanic_ok _ _
  | vMap kt vt d =>
    rw [stepCompare_self_addr [] env heap _ ⟨.vMap kt vt d, some x, ro⟩ ⟨.vMap kt vt d, some x, ro⟩
      vis x rfl rfl rfl rfl rfl rfl rfl]
    exact usefulPanic_ok _ _
  | vArray t es =>
    rw [stepCompare_self_addr [] env heap _ ⟨.vArray t es, some x, ro⟩ ⟨.vArray t es, some x, ro⟩
      vis x rfl rfl rfl rfl rfl rfl rfl]
    exact usefulPanic_ok _ _
  | vStruct n fs =>
    rw [stepCompare_self_addr [] env heap _ ⟨.vStruct n fs, some x, ro⟩ ⟨.vStruct n fs, some x, ro⟩
      vis x rfl rfl rfl rfl rfl rfl rfl]
    exact usefulPanic_ok _ _

theorem selfZero (env : StructEnv) (heap : Heap) (hheap : heapSelfOk heap = true) :
    ∀ (f : Nat) (v : Val) (o : Option Addr) (ro : Bool) (vis : Visited),
      selfOk env ro v = true → szv v ≤ f →
      deepValueCompare [] env heap f ⟨v, o, ro⟩ ⟨v, o, ro⟩ vis = .ok (0, vis) := by
  intro f
  induction f with
  | zero =>
    intro v o ro vis hok hsz
    exact absurd hsz (by have := szv_pos v; omega)
  | succ f ih =>
    intro v o ro vis hok hsz
    rw [deepValueCompare_succ]
    cases v with
    | vInvalid => simp [stepCompare, isValid, compareBool, usefulPanic]
    | vInt i =>
      rw [stepCompare_not_hard [] env heap _ ⟨.vInt i, o, ro⟩ ⟨.vInt i, o, ro⟩ vis
        rfl rfl rfl rfl rfl]
      simp [dispatchCompare, compareInt64_self, usefulPanic]
    | vUint u =>
      rw [stepCompare_not_hard [] env heap _ ⟨.vUint u, o, ro⟩ ⟨.vUint u, o, ro⟩ vis
        rfl rfl rfl rfl rfl]
      simp [dispatchCompare, compareUInt64_self, usefulPanic]
    | vBool b =>
      rw [stepCompare_not_hard [] env heap _ ⟨.vBool b, o, ro⟩ ⟨.vBool b, o, ro⟩ vis
        rfl rfl rfl rfl rfl]
      simp [dispatchCompare, compareBool_self, usefulPanic]
    | vStr s =>
      rw [stepCompare_not_hard [] env heap _ ⟨.vStr s, o, ro⟩ ⟨.vStr s, o, ro⟩ vis
        rfl rfl rfl rfl rfl]
      simp [dispatchCompare, stringsCompare_self, usefulPanic]
    | vCplx a b =>
      have hro : ro = false := by simpa [selfOk] using hok
      subst hro
      rw [stepCompare_not_hard [] env heap _ ⟨.vCplx a b, o, false⟩ ⟨.vCplx a b, o, false⟩ vis
        rfl rfl rfl rfl rfl]
      have heq : valEqB (.vCplx a b) (.vCplx a b) = true := by
        show (a == a && b == b) = true
        simp
      simp [dispatchCompare, compareInterface, heq, usefulPanic]
    | vFn sig r =>
      have hr : r = none := by
        cases r with
        | none => rfl
        | some y => simp [selfOk] at hok
      subst hr
      rw [stepCompare_not_hard [] env heap _ ⟨.vFn sig none, o, ro⟩ ⟨.vFn sig none, o, ro⟩ vis
        rfl rfl rfl rfl rfl]
      simp [dispatchCompare, compareBool, usefulPanic]
    | vIface w =>
      rw [stepCompare_not_hard [] env heap _ ⟨.vIface w, o, ro⟩ ⟨.vIface w, o, ro⟩ vis
        rfl rfl rfl rfl rfl]
      cases w with
      | none =>
        have hf : 1 ≤ f := by simp [szv] at hsz; omega
        simp only [dispatchCompare, compareBool_self, ne_eq, lt_irrefl, if_false]
        simp only [ifaceElem]
        rw [ih .vInvalid none ro vis (by simp [selfOk]) (by simp [szv]; omega)]
        exact usefulPanic_ok _ _
      | some w =>
        have hsw : szv w ≤ f := by simp [szv] at hsz; omega
        simp only [dispatchCompare, compareBool_self, ne_eq, lt_irrefl, if_false]
        simp only [ifaceElem]
        rw [ih w none ro vis (by simpa [selfOk] using hok) hsw]
        exact usefulPanic_ok _ _
    | vPtr t a =>
      rw [stepCompare_not_hard [] env heap _ ⟨.vPtr t a, o, ro⟩ ⟨.vPtr t a, o, ro⟩ vis
        rfl rfl rfl rfl rfl]
      have hf : 1 ≤ f := by simp [szv] at hsz; omega
      cases a with
      | none =>
        simp only [dispatchCompare, ptrElem]
        rw [ih .vInvalid none ro vis (by simp [selfOk]) (by simp [szv]; omega)]
        exact usefulPanic_ok _ _
      | some y =>
        simp only [dispatchCompare, ptrElem]
        rw [cellSelfZero env heap (heapAt heap y) (cellOk_heapAt heap hheap y) f hf [y] ro vis]
        exact usefulPanic_ok _ _
    | vSlice t d =>
      cases o with
      | some x =>
        rw [stepCompare_self_addr [] env heap _ ⟨.vSlice t d, some x, ro⟩ ⟨.vSlice t d, some x, ro⟩
          vis x rfl rfl rfl rfl rfl rfl rfl]
        exact usefulPanic_ok _ _
      | none =>
        simp [stepCompare, dispatchCompare, sub_self, usefulPanic, isValid, lookupC]
    | vMap kt vt d =>
      cases o with
      | some x =>
        rw [stepCompare_self_addr [] env heap _ ⟨.vMap kt vt d, some x, ro⟩ ⟨.vMap kt vt d, some x, ro⟩
          vis x rfl rfl rfl rfl rfl rfl rfl]
        exact usefulPanic_ok _ _
      | none =>
        simp [stepCompare, dispatchCompare, sub_self, usefulPanic, isValid, lookupC]
    | vArray t es =>
      have hes : szvL es ≤ f := by simp [szv] at hsz; omega
      have hokL : selfOkL env ro es = true := by simpa [selfOk] using hok
      cases o with
      | some x =>
        rw [stepCompare_self_addr [] env heap _ ⟨.vArray t es, some x, ro⟩ ⟨.vArray t es, some x, ro⟩
          vis x rfl rfl rfl rfl rfl rfl rfl]
        exact usefulPanic_ok _ _
      | none =>
        rw [stepCompare_hard_no_addr [] env heap _ ⟨.vArray t es, none, ro⟩ ⟨.vArray t es, none, ro⟩
          vis rfl rfl rfl rfl rfl rfl]
        simp only [dispatchCompare]
        rw [compareListWith_allZero]
        · exact usefulPanic_ok _ _
        · -- every generated pair compares to zero
          have : ∀ (es2 : List Val) (i : Nat), selfOkL env ro es2 = true → szvL es2 ≤ f →
              ∀ p ∈ elemPairs ⟨.vArray t es, none, ro⟩ ⟨.vArray t es, none, ro⟩ es2 es2 i,
              ∀ vis2, deepValueCompare [] env heap f p.1 p.2 vis2 = .ok (0, vis2) := by
            intro es2
            induction es2 with
            | nil => intro i _ _ p hp; simp [elemPairs] at hp
            | cons w ws ihw =>
              intro i hok2 hsz2 p hp vis2
              simp only [selfOkL, Bool.and_eq_true] at hok2
              simp only [szvL] at hsz2
              simp only [elemPairs, extAddr, Option.map_none, List.mem_cons] at hp
              rcases hp with hp | hp
              · subst hp
                exact ih w none ro vis2 hok2.1 (by omega)
              · exact ihw (i + 1) hok2.2 (by omega) p hp vis2
          exact this es 0 hokL hes
    | vStruct n fs =>
      have hes : szvL fs ≤ f := by simp [szv] at hsz; omega
      have hokF : selfOkF env ro fs (env n) = true := by simpa [selfOk] using hok
      cases o with
      | some x =>
        rw [stepCompare_self_addr [] env heap _ ⟨.vStruct n fs, some x, ro⟩ ⟨.vStruct n fs, some x, ro⟩
          vis x rfl rfl rfl rfl rfl rfl rfl]
        exact usefulPanic_ok _ _
      | none =>
        rw [stepCompare_hard_no_addr [] env heap _ ⟨.vStruct n fs, none, ro⟩ ⟨.vStruct n fs, none, ro⟩
          vis rfl rfl rfl rfl rfl rfl]
        simp only [dispatchCompare]
        rw [compareListWith_allZero]
        · exact usefulPanic_ok _ _
        · have : ∀ (fs2 : List Val) (flags : List (Bool × Ty)) (i : Nat),
              selfOkF env ro fs2 flags = true → szvL fs2 ≤ f →
              ∀ p ∈ fieldPairs ⟨.vStruct n fs, none, ro⟩ ⟨.vStruct n fs, none, ro⟩ fs2 fs2 flags i,
              ∀ vis2, deepValueCompare [] env heap f p.1 p.2 vis2 = .ok (0, vis2) := by
            intro fs2
            induction fs2 with
            | nil => intro flags i _ _ p hp; simp [fieldPairs] at hp
            | cons w ws ihw =>
              intro flags i hok2 hsz2 p hp vis2
              cases flags with
              | nil => simp [fieldPairs] at hp
              | cons fl tf =>
                obtain ⟨ex, ty⟩ := fl
                simp only [selfOkF, Bool.and_eq_true] at hok2
                simp only [szvL] at hsz2
                simp only [fieldPairs, extAddr, Option.map_none, List.mem_cons] at hp
                rcases hp with hp | hp
                · subst hp
                  exact ih w none (ro || !ex) vis2 hok2.1 (by omega)
                · exact ihw tf (i + 1) hok2.2 (by omega) p hp vis2
          exact this fs (env n) 0 hokF hes


/-- Empty struct-field table used by the concrete examples. -/
def envEmpty : StructEnv := fun _ => []

/-- Struct-field tables of the example types: a self-referential `Node`, a
struct `U` with one non-exported int field, and `COuter` nesting `CInner`
whose single non-exported field has the fallback kind. -/
def envFix : StructEnv := fun n =>
  if n = "Node" then [(true, .ptr (.named "Node"))]
  else if n = "U" then [(false, .int)]
  else if n = "COuter" then [(true, .named "CInner")]
  else if n = "CInner" then [(false, .cplx)]
  else []

/-- Two independently built, isomorphic self-referential `Node` cells. -/
def nodeHeap : Heap := [(1, .vStruct "Node" [.vPtr (.named "Node") (some 1)]),
                        (2, .vStruct "Node" [.vPtr (.named "Node") (some 2)])]

/-- Pointer to the `Node` cell at address `a`. -/
def nodeRef (a : Nat) : Val := .vPtr (.named "Node") (some a)

/-- The dereferenced `Node` cell at address `a`, as the engine sees it. -/
def nodeCellR (a : Nat) : RVal := ⟨heapAt nodeHeap a, some [a], false⟩

/-- Unfolding a top-level comparison of two non-nil operands of equal
dynamic type. -/
theorem DeepCompare_someL (c : Comparisons) (env : StructEnv) (heap : Heap) (fuel : Nat)
    (v1 v2 : Val) (ht : typeOf v1 = typeOf v2) :
    DeepCompare c env heap fuel (some v1) (some v2)
      = (deepValueCompare c env heap fuel ⟨v1, none, false⟩ ⟨v2, none, false⟩ []).map
          (fun p => p.1) := by
  simp [DeepCompare, compareBool, ht]

/-- C1: the spec claims `DeepCompare(nil, non-nil)` is negative (nil orders
first).  The source computes `compareBool(a1 == nil, a2 == nil)`, which
orders the nil operand last: at the failing input (nil, 5) the code returns
the positive signal, and at (5, nil) the negative one, the exact negations
of the claimed signs.  The short-circuit half of the claim does hold: the
nil check precedes the type-descriptor check, so untyped nil against any
dynamic type yields a defined signal and no type-mismatch panic. -/
theorem c1_top_level_nil_orders_last :
    DeepCompare [] envEmpty [] 9 none (some (.vInt 5)) = .ok 1 ∧
    DeepCompare [] envEmpty [] 9 (some (.vInt 5)) none = .ok (-1) ∧
    DeepCompare [] envEmpty [] 9 none (some (.vStr [102])) = .ok 1 ∧
    DeepCompare [] envEmpty [] 9 (some (.vBool true)) none = .ok (-1) :=
  ⟨rfl, rfl, rfl, rfl⟩

/-- Evaluation context of one double step of the divergent comparison of
the two distinct isomorphic Node cycles: struct frame, field loop, pointer
frame, then the dereference re-entering the same pair of cells with the
visited set still empty, because the source only caches a comparison after
it returns (the deferred write) and never marks it in progress. -/
def c2wrap (r : Res) : Res :=
  usefulPanic (.named "Node")
    (match (match usefulPanic (.ptr (.named "Node")) r with
            | .ok (r0, vis) => if r0 = 0 then .ok (0, vis) else .ok (r0, vis)
            | .error e => .error e : Res) with
     | .ok (r1, vis) => .ok (r1, vInsert vis ⟨[1], [2], .named "Node"⟩ r1)
     | .error e => .error e)

/-- Comparing the two distinct isomorphic Node cycles re-enters itself after
two engine calls with an unchanged (empty) visited set, hence exhausts any
amount of fuel: the source never terminates on this input. -/
theorem c2iso : ∀ f, deepValueCompare [] envFix nodeHeap f (nodeCellR 1) (nodeCellR 2) []
    = .error .outOfFuel := by
  intro f
  induction f using Nat.strong_induction_on with
  | _ f ih =>
    rcases f with _ | f
    · rfl
    rcases f with _ | g
    · rfl
    · have h := ih g (by omega)
      calc deepValueCompare [] envFix nodeHeap (g + 2) (nodeCellR 1) (nodeCellR 2) []
          = c2wrap (deepValueCompare [] envFix nodeHeap g (nodeCellR 1) (nodeCellR 2) []) := rfl
        _ = .error .outOfFuel := by rw [h]; rfl

/-- C2: the spec claims every self-referential structure terminates,
including an independently built isomorphic pair, via the visited set
short-circuiting re-entry into an in-progress comparison.  The code caches a
comparison only in a deferred write that runs after the comparison returns,
so an in-progress pair is never found in the visited set: comparing two
distinct isomorphic self-referential Nodes re-enters the same pair of cells
forever (modelled as out-of-fuel for every fuel bound), while comparing the
self-referential value to itself terminates with 0 only because the two
addresses coincide. -/
theorem c2_cycle_termination :
    (∀ fuel, DeepCompare [] envFix nodeHeap fuel (some (nodeRef 1)) (some (nodeRef 2))
      = .error .outOfFuel) ∧
    DeepCompare [] envFix nodeHeap 9 (some (nodeRef 1)) (some (nodeRef 1)) = .ok 0 := by
  constructor
  · intro fuel
    rcases fuel with _ | f
    · rfl
    · show (deepValueCompare [] envFix nodeHeap (f + 1)
          ⟨nodeRef 1, none, false⟩ ⟨nodeRef 2, none, false⟩ []).map (fun p => p.1)
          = .error .outOfFuel
      rw [deepValueCompare_succ]
      rw [stepCompare_not_hard [] envFix nodeHeap _ ⟨nodeRef 1, none, false⟩
        ⟨nodeRef 2, none, false⟩ [] rfl rfl rfl rfl rfl]
      show (usefulPanic _ (deepValueCompare [] envFix nodeHeap f (nodeCellR 1) (nodeCellR 2) [])).map
          (fun p => p.1) = .error .outOfFuel
      rw [c2iso f]
      rfl
  · rfl

/-- C3 counterexample: a non-nil callable compared against itself does not
return 0 but aborts with the non-nil-functions panic, refuting reflexivity
for every value. -/
theorem c3_counterexample_nonnil_func_self :
    DeepCompare [] envEmpty [] 9 (some (.vFn 0 (some 7))) (some (.vFn 0 (some 7)))
      = .error .nonNilFuncs := rfl

/-- C3 (amended): `DeepCompare(a, a)` terminates and returns 0, with an empty
registry, for every value that contains no non-nil callable and no
fallback-kind value behind a non-exported field (`selfOk`), provided every
heap cell is a scalar, composite, sequence or map (`heapSelfOk`) — this
includes self-referential values such as a Node cycle, whose re-entry stops
at the address-identity check — given fuel at least the self-comparison
depth `szv` of the value. -/
theorem c3_reflexivity_amended (env : StructEnv) (heap : Heap) (v : Val) (fuel : Nat)
    (hheap : heapSelfOk heap = true) (hok : selfOk env false v = true)
    (hsz : szv v ≤ fuel) :
    DeepCompare [] env heap fuel (some v) (some v) = .ok 0 := by
  rw [DeepCompare_someL [] env heap fuel v v rfl,
    selfZero env heap hheap fuel v none false [] hok hsz]
  rfl

/-- C3 witness: the amended reflexivity applied to the self-referential Node
cycle. -/
theorem c3_reflexivity_amended_witness :
    DeepCompare [] envFix nodeHeap 9 (some (nodeRef 1)) (some (nodeRef 1)) = .ok 0 :=
  c3_reflexivity_amended envFix nodeHeap (nodeRef 1) 9 rfl rfl (by decide)

/-- C6 counterexample: a struct whose single non-exported field is an int is
compared silently (the scalar branch reads the field without a
CanInterface check), refuting the claim that any composite with a
non-public field aborts. -/
theorem c6_counterexample_silent_unexported_int :
    DeepCompare [] envFix [] 9 (some (.vStruct "U" [.vInt 1])) (some (.vStruct "U" [.vInt 2]))
      = .ok (-1) := rfl

/-- C6 (amended): when the non-public field's comparison reaches the
fallback (equality-only) kind, the comparison aborts with the
unexported-field panic carrying the chain of enclosing types from the
outermost type down to the offending field, for any field contents. -/
theorem c6_unexported_fallback_chain (a1 b1 a2 b2 : Int) :
    DeepCompare [] envFix [] 9
      (some (.vStruct "COuter" [.vStruct "CInner" [.vCplx a1 b1]]))
      (some (.vStruct "COuter" [.vStruct "CInner" [.vCplx a2 b2]]))
      = .error (.unexported [.named "COuter", .named "CInner", .cplx]) := rfl

/-- C7: at any engine step whose two operands are valid and share the type
descriptor held in the registry, the registered ordering function is invoked
and its signal returned verbatim, with the visited set unchanged — the cycle
check and the shape dispatch are skipped for that step.  The statement is at
the level of the recursive engine, so it covers the top level and every
nesting depth alike. -/
theorem c7_override_precedence (c : Comparisons) (env : StructEnv) (heap : Heap) (fuel : Nat)
    (rv1 rv2 : RVal) (vis : Visited) (g : Val → Val → Int)
    (h1 : isValid rv1.val = true) (h2 : isValid rv2.val = true)
    (h3 : typeOf rv1.val = typeOf rv2.val)
    (h4 : lookupC c (typeOf rv1.val) = some g) :
    deepValueCompare c env heap (fuel + 1) rv1 rv2 vis = .ok (g rv1.val rv2.val, vis) := by
  rw [deepValueCompare_succ]
  have h4a := h4
  rw [h3] at h4a
  simp [stepCompare, h1, h2, h3, h4, h4a, usefulPanic]

/-- The override used by the C7 witness. -/
def ovr : Val → Val → Int := fun _ _ => 5

/-- C7 witness: an override registered for a struct type fires on two
operands occupying the same address — where the structural rules would have
short-circuited to 0, the override's verbatim signal 5 is returned. -/
theorem c7_override_precedence_witness :
    deepValueCompare [(.named "OT", ovr)] envEmpty [] 3
      ⟨.vStruct "OT" [], some [4], false⟩ ⟨.vStruct "OT" [], some [4], false⟩ []
      = .ok (5, []) :=
  c7_override_precedence [(.named "OT", ovr)] envEmpty [] 2 _ _ [] ovr rfl rfl rfl rfl

/-- Slice rule: exactly one operand nil-or-empty reports equal. -/
theorem c5_slice_one_empty (env : StructEnv) (heap : Heap) (fuel : Nat) (et : Ty)
    (o1 o2 : Option (Nat × List Val)) (h : sliceNilOrEmpty o1 ≠ sliceNilOrEmpty o2) :
    DeepCompare [] env heap (fuel + 1) (some (.vSlice et o1)) (some (.vSlice et o2)) = .ok 0 := by
  rw [DeepCompare_someL [] env heap (fuel + 1) (.vSlice et o1) (.vSlice et o2) rfl, deepValueCompare_succ,
    stepCompare_hard_no_addr [] env heap _ ⟨.vSlice et o1, none, false⟩
      ⟨.vSlice et o2, none, false⟩ [] rfl rfl rfl rfl rfl rfl]
  simp [dispatchCompare, h, usefulPanic, Except.map]

/-- Slice rule: a nil slice compares equal to an empty one. -/
theorem c5_slice_nil_vs_empty (env : StructEnv) (heap : Heap) (fuel : Nat) (et : Ty) (d : Nat) :
    DeepCompare [] env heap (fuel + 1) (some (.vSlice et none)) (some (.vSlice et (some (d, []))))
      = .ok 0 := by
  rw [DeepCompare_someL [] env heap (fuel + 1) (.vSlice et none) (.vSlice et (some (d, []))) rfl, deepValueCompare_succ,
    stepCompare_hard_no_addr [] env heap _ ⟨.vSlice et none, none, false⟩
      ⟨.vSlice et (some (d, [])), none, false⟩ [] rfl rfl rfl rfl rfl rfl]
  by_cases hd : (0 : Nat) = d
  · simp [dispatchCompare, sliceNilOrEmpty, sliceLen, slicePtr, hd, usefulPanic, Except.map]
  · simp [dispatchCompare, sliceNilOrEmpty, sliceLen, slicePtr, sliceElems, hd,
      slicePairs, compareListWith, usefulPanic, Except.map]

/-- Slice rule: two non-empty slices of different lengths order by length
difference. -/
theorem c5_slice_len (env : StructEnv) (heap : Heap) (fuel : Nat) (et : Ty)
    (o1 o2 : Option (Nat × List Val))
    (h1 : sliceNilOrEmpty o1 = false) (h2 : sliceNilOrEmpty o2 = false)
    (h3 : (sliceLen o1 : Int) - (sliceLen o2 : Int) ≠ 0) :
    DeepCompare [] env heap (fuel + 1) (some (.vSlice et o1)) (some (.vSlice et o2))
      = .ok ((sliceLen o1 : Int) - (sliceLen o2 : Int)) := by
  rw [DeepCompare_someL [] env heap (fuel + 1) (.vSlice et o1) (.vSlice et o2) rfl, deepValueCompare_succ,
    stepCompare_hard_no_addr [] env heap _ ⟨.vSlice et o1, none, false⟩
      ⟨.vSlice et o2, none, false⟩ [] rfl rfl rfl rfl rfl rfl]
  simp [dispatchCompare, h1, h2, h3, usefulPanic, Except.map]

/-- Map rule: exactly one operand nil-or-empty reports equal. -/
theorem c5_map_one_empty (env : StructEnv) (heap : Heap) (fuel : Nat) (kt vt : Ty)
    (m1 m2 : Option (Nat × List (Val × Val))) (h : mapNilOrEmpty m1 ≠ mapNilOrEmpty m2) :
    DeepCompare [] env heap (fuel + 1) (some (.vMap kt vt m1)) (some (.vMap kt vt m2)) = .ok 0 := by
  rw [DeepCompare_someL [] env heap (fuel + 1) (.vMap kt vt m1) (.vMap kt vt m2) rfl, deepValueCompare_succ,
    stepCompare_hard_no_addr [] env heap _ ⟨.vMap kt vt m1, none, false⟩
      ⟨.vMap kt vt m2, none, false⟩ [] rfl rfl rfl rfl rfl rfl]
  simp [dispatchCompare, h, usefulPanic, Except.map]

/-- Map rule: a nil map compares equal to an empty one. -/
theorem c5_map_nil_vs_empty (env : StructEnv) (heap : Heap) (fuel : Nat) (kt vt : Ty) (d : Nat) :
    DeepCompare [] env heap (fuel + 1) (some (.vMap kt vt none))
      (some (.vMap kt vt (some (d, [])))) = .ok 0 := by
  rw [DeepCompare_someL [] env heap (fuel + 1) (.vMap kt vt none) (.vMap kt vt (some (d, []))) rfl, deepValueCompare_succ,
    stepCompare_hard_no_addr [] env heap _ ⟨.vMap kt vt none, none, false⟩
      ⟨.vMap kt vt (some (d, [])), none, false⟩ [] rfl rfl rfl rfl rfl rfl]
  by_cases hd : (0 : Nat) = d
  · simp [dispatchCompare, mapNilOrEmpty, mapLen, mapPtr, hd, usefulPanic, Except.map]
  · simp [dispatchCompare, mapNilOrEmpty, mapLen, mapPtr, mapEntries, hd,
      mapPairs, compareListWith, usefulPanic, Except.map]

/-- Map rule: two non-empty maps of different sizes order by length
difference. -/
theorem c5_map_len (env : StructEnv) (heap : Heap) (fuel : Nat) (kt vt : Ty)
    (m1 m2 : Option (Nat × List (Val × Val)))
    (h1 : mapNilOrEmpty m1 = false) (h2 : mapNilOrEmpty m2 = false)
    (h3 : (mapLen m1 : Int) - (mapLen m2 : Int) ≠ 0) :
    DeepCompare [] env heap (fuel + 1) (some (.vMap kt vt m1)) (some (.vMap kt vt m2))
      = .ok ((mapLen m1 : Int) - (mapLen m2 : Int)) := by
  rw [DeepCompare_someL [] env heap (fuel + 1) (.vMap kt vt m1) (.vMap kt vt m2) rfl, deepValueCompare_succ,
    stepCompare_hard_no_addr [] env heap _ ⟨.vMap kt vt m1, none, false⟩
      ⟨.vMap kt vt m2, none, false⟩ [] rfl rfl rfl rfl rfl rfl]
  simp [dispatchCompare, h1, h2, h3, usefulPanic, Except.map]

-- ===== C8 / C9 helpers =====
/-- The validation outcome of `AddFunc` does not depend on the registry. -/
theorem AddFunc_snd_indep (c : Comparisons) (f : Candidate) :
    (AddFunc c f).2 = (AddFunc [] f).2 := by
  unfold AddFunc
  split_ifs <;> rfl

/-- A failed `AddFunc` leaves the registry unchanged. -/
theorem AddFunc_err_fst (c : Comparisons) (f : Candidate) (e : AddErr)
    (h : (AddFunc c f).2 = some e) : (AddFunc c f).1 = c := by
  unfold AddFunc at h ⊢
  split_ifs at h ⊢ <;> simp_all

/-- Registry after registering a list of candidates in order. -/
def regAll (c : Comparisons) : List Candidate → Comparisons
  | [] => c
  | f :: fs => regAll (AddFunc c f).1 fs

/-- Registering always stores under the key, replacing any prior entry. -/
theorem lookupC_updateC (c : Comparisons) (t : Ty) (g : Val → Val → Int) :
    lookupC (updateC c t g) t = some g := by
  induction c with
  | nil => simp [updateC, lookupC]
  | cons p rest ih =>
    obtain ⟨t0, g0⟩ := p
    by_cases h : t0 = t
    · simp [updateC, h, lookupC]
    · simp [updateC, h, lookupC, ih]

/-- Batch registration with a failing candidate: `AddFuncs` stops at the
first validation error retaining the registrations made so far, while
`NewComparisons` returns no registry (Go nil) together with that error and
`NewComparisonsOrDie` panics with it. -/
theorem c8_batch_registration_amended (e : AddErr) (c : Comparisons) (pre : List Candidate) (bad : Candidate)
    (post : List Candidate)
    (hpre : ∀ f ∈ pre, (AddFunc [] f).2 = none) (hbad : (AddFunc [] bad).2 = some e) :
    AddFuncs c (pre ++ bad :: post) = (regAll c pre, some e) ∧
    NewComparisons (pre ++ bad :: post) = (none, some e) ∧
    NewComparisonsOrDie (pre ++ bad :: post) = .error e := by
  have key : ∀ (pre2 : List Candidate) (c2 : Comparisons),
      (∀ f ∈ pre2, (AddFunc [] f).2 = none) →
      AddFuncs c2 (pre2 ++ bad :: post) = (regAll c2 pre2, some e) := by
    intro pre2
    induction pre2 with
    | nil =>
      intro c2 _
      have hsnd : (AddFunc c2 bad).2 = some e := (AddFunc_snd_indep c2 bad).trans hbad
      have hfst : (AddFunc c2 bad).1 = c2 := AddFunc_err_fst c2 bad e hsnd
      simp only [List.nil_append, AddFuncs, regAll]
      rw [show AddFunc c2 bad = (c2, some e) from Prod.ext hfst hsnd]
    | cons f rest ih =>
      intro c2 hp
      have hsnd : (AddFunc c2 f).2 = none :=
        (AddFunc_snd_indep c2 f).trans (hp f (by simp))
      simp only [List.cons_append, AddFuncs, regAll]
      rw [show AddFunc c2 f = ((AddFunc c2 f).1, none) from Prod.ext rfl hsnd]
      exact ih (AddFunc c2 f).1 (fun q hq => hp q (by simp [hq]))
  refine ⟨key pre c hpre, ?_, ?_⟩
  · simp only [NewComparisons, key pre [] hpre]
  · simp only [NewComparisonsOrDie, NewComparisons, key pre [] hpre]

-- ===== C9 =====
/-- C9: `AddFunc` succeeds exactly for a function of two identical
parameter types returning one int; each of the violations yields its own
distinct error (with not-a-function and wrong-parameter-count separately
reported); on success the function is stored keyed by the parameter type,
silently replacing any prior entry (last write wins), and on failure the
registry is unchanged. -/
theorem c9_add_func_validation (c : Comparisons) (f : Candidate) :
    ((AddFunc c f).2 = none ↔
      (f.isFunc = true ∧ f.ins.length = 2 ∧ f.outs.length = 1 ∧
        f.ins.getD 0 .invalid = f.ins.getD 1 .invalid ∧ f.outs.getD 0 .invalid = .int)) ∧
    ((AddFunc c f).2 = none →
      AddFunc c f = (updateC c (f.ins.getD 0 .invalid) f.fn, none)) ∧
    (∀ e, (AddFunc c f).2 = some e → (AddFunc c f).1 = c) ∧
    (f.isFunc = false → (AddFunc c f).2 = some .notFunc) ∧
    (f.isFunc = true → f.ins.length ≠ 2 → (AddFunc c f).2 = some .badNumIn) ∧
    (f.isFunc = true → f.ins.length = 2 → f.outs.length ≠ 1 →
      (AddFunc c f).2 = some .badNumOut) ∧
    (f.isFunc = true → f.ins.length = 2 → f.outs.length = 1 →
      f.ins.getD 0 .invalid ≠ f.ins.getD 1 .invalid → (AddFunc c f).2 = some .argMismatch) ∧
    (f.isFunc = true → f.ins.length = 2 → f.outs.length = 1 →
      f.ins.getD 0 .invalid = f.ins.getD 1 .invalid → f.outs.getD 0 .invalid ≠ .int →
      (AddFunc c f).2 = some .badReturn) ∧
    (∀ (t : Ty) (g : Val → Val → Int), lookupC (updateC c t g) t = some g) := by
  refine ⟨?_, ?_, ?_, ?_, ?_, ?_, ?_, ?_, fun t g => lookupC_updateC c t g⟩
  · unfold AddFunc
    split_ifs <;> simp_all
  · intro h
    unfold AddFunc at h ⊢
    split_ifs at h ⊢
    simp_all
  · exact fun e h => AddFunc_err_fst c f e h
  · intro h; simp [AddFunc, h]
  · intro h1 h2; simp [AddFunc, h1, h2]
  · intro h1 h2 h3; simp [AddFunc, h1, h2, h3]
  · intro h1 h2 h3 h4
    unfold AddFunc
    rw [if_neg (by simp [h1]), if_neg (by simp [h2]), if_neg (by simp [h3]), if_pos h4]
  · intro h1 h2 h3 h4 h5
    unfold AddFunc
    rw [if_neg (by simp [h1]), if_neg (by simp [h2]), if_neg (by simp [h3]),
      if_neg (not_not_intro h4), if_pos h5]

-- ===== C10 =====
/-- Comparing a valid value against the invalid sentinel yields the
positive signal (the valid side orders last is false: the INVALID side
orders first), leaving the visited set unchanged. -/
theorem invalidRight (env : StructEnv) (heap : Heap) (k : Nat) (hk : 1 ≤ k)
    (v w : Val) (ro : Bool) (vis : Visited)
    (hv : isValid v = true) (hw : isValid w = false) :
    deepValueCompare [] env heap k ⟨v, none, ro⟩ ⟨w, none, ro⟩ vis = .ok (1, vis) := by
  obtain ⟨g, rfl⟩ : ∃ g, k = g + 1 := ⟨k - 1, by omega⟩
  rw [deepValueCompare_succ]
  simp [stepCompare, hv, hw, compareBool, usefulPanic]

/-- C10: for two non-empty maps of equal length with distinct storage,
where every key of the first map is either absent from the second or mapped
to an equal value, and at least one key is absent, the comparison returns
the positive signal 1 rather than aborting: the absent entry reads as the
invalid sentinel, which orders before the present value. -/
theorem c10_map_missing_key_positive (env : StructEnv) (heap : Heap) (kt vt : Ty) (d1 d2 : Nat)
    (es1 es2 : List (Val × Val)) (k : Nat)
    (hheap : heapSelfOk heap = true)
    (hne : es1 ≠ [])
    (hlen : es2.length = es1.length)
    (hd : d1 ≠ d2)
    (hvals : ∀ p ∈ es1, isValid (mapAt es1 p.1) = true ∧
      selfOk env false (mapAt es1 p.1) = true ∧ szv (mapAt es1 p.1) ≤ k)
    (hshared : ∀ p ∈ es1, isValid (mapAt es2 p.1) = false ∨ mapAt es2 p.1 = mapAt es1 p.1)
    (habsent : ∃ p ∈ es1, isValid (mapAt es2 p.1) = false) :
    DeepCompare [] env heap (k + 1) (some (.vMap kt vt (some (d1, es1))))
      (some (.vMap kt vt (some (d2, es2)))) = .ok 1 := by
  have hk : 1 ≤ k := by
    obtain ⟨p, hp, _⟩ := habsent
    have := (hvals p hp).2.2
    have := szv_pos (mapAt es1 p.1)
    omega
  have e1 : es1.isEmpty = false := by
    cases es1 with
    | nil => exact absurd rfl hne
    | cons a b => rfl
  have e2 : es2.isEmpty = false := by
    cases es2 with
    | nil =>
      exact absurd (List.eq_nil_of_length_eq_zero hlen.symm) hne
    | cons a b => rfl
  rw [DeepCompare_someL [] env heap (k + 1) (.vMap kt vt (some (d1, es1)))
      (.vMap kt vt (some (d2, es2))) rfl, deepValueCompare_succ,
    stepCompare_hard_no_addr [] env heap _ ⟨.vMap kt vt (some (d1, es1)), none, false⟩
      ⟨.vMap kt vt (some (d2, es2)), none, false⟩ [] rfl rfl rfl rfl rfl rfl]
  simp only [dispatchCompare, mapNilOrEmpty, mapLen, mapPtr, mapEntries, e1, e2, hlen]
  rw [if_neg (by simp), if_neg (by simp), if_neg hd]
  have scan : ∀ (l : List (Val × Val)) (vis : Visited),
      (∀ p ∈ l, isValid (mapAt es1 p.1) = true ∧
        selfOk env false (mapAt es1 p.1) = true ∧ szv (mapAt es1 p.1) ≤ k) →
      (∀ p ∈ l, isValid (mapAt es2 p.1) = false ∨ mapAt es2 p.1 = mapAt es1 p.1) →
      (∃ p ∈ l, isValid (mapAt es2 p.1) = false) →
      compareListWith (fun a b v => deepValueCompare [] env heap k a b v)
        (l.map (fun p => (⟨mapAt es1 p.1, none, false⟩, ⟨mapAt es2 p.1, none, false⟩))) vis
        = .ok (1, vis) := by
    intro l
    induction l with
    | nil => intro vis _ _ hex; simp at hex
    | cons p rest ih =>
      intro vis hv hs hex
      simp only [List.map_cons, compareListWith]
      rcases hs p (by simp) with habs | heq
      · rw [invalidRight env heap k hk (mapAt es1 p.1) (mapAt es2 p.1) false vis
          (hv p (by simp)).1 habs]
        norm_num
      · rw [heq, selfZero env heap hheap k (mapAt es1 p.1) none false vis
          (hv p (by simp)).2.1 (hv p (by simp)).2.2]
        simp only [if_pos rfl]
        refine ih vis (fun q hq => hv q (by simp [hq])) (fun q hq => hs q (by simp [hq])) ?_
        obtain ⟨q, hq, hqabs⟩ := hex
        rcases List.mem_cons.mp hq with hq1 | hq2
        · rw [hq1, heq, (hv p (by simp)).1] at hqabs
          cases hqabs
        · exact ⟨q, hq2, hqabs⟩
  have hscan := scan es1 [] hvals hshared habsent
  have hmp : mapPairs false false es1 es2
      = es1.map (fun p => ((⟨mapAt es1 p.1, none, false⟩ : RVal),
          (⟨mapAt es2 p.1, none, false⟩ : RVal))) := rfl
  rw [hmp, hscan]
  rfl

/-- C4 counterexample: two singleton maps of equal length with disjoint
keys compare to the positive signal in both argument orders (each map
iterates its own keys and finds the other side absent), violating
antisymmetry for key-value containers. -/
theorem c4_counterexample_map_antisymmetry :
    DeepCompare [] envEmpty [] 9
      (some (.vMap .int .int (some (7, [(.vInt 1, .vInt 1)]))))
      (some (.vMap .int .int (some (8, [(.vInt 2, .vInt 1)])))) = .ok 1 ∧
    DeepCompare [] envEmpty [] 9
      (some (.vMap .int .int (some (8, [(.vInt 2, .vInt 1)]))))
      (some (.vMap .int .int (some (7, [(.vInt 1, .vInt 1)])))) = .ok 1 :=
  ⟨rfl, rfl⟩

/-- C5: nil-or-empty equivalence for slices and maps.  With an empty
registry: when exactly one operand is nil-or-empty the comparison reports
equal at that step (no ordering by length); a nil sequence equals an empty
one; and only when both sides are non-empty does the length comparison
apply, returning the length difference when it is nonzero. -/
theorem c5_nil_empty_equivalence (env : StructEnv) (heap : Heap) (fuel : Nat)
    (et kt vt : Ty) (o1 o2 : Option (Nat × List Val))
    (m1 m2 : Option (Nat × List (Val × Val))) (d e : Nat) :
    (sliceNilOrEmpty o1 ≠ sliceNilOrEmpty o2 →
      DeepCompare [] env heap (fuel + 1) (some (.vSlice et o1)) (some (.vSlice et o2)) = .ok 0) ∧
    (DeepCompare [] env heap (fuel + 1) (some (.vSlice et none))
      (some (.vSlice et (some (d, [])))) = .ok 0) ∧
    (sliceNilOrEmpty o1 = false → sliceNilOrEmpty o2 = false →
      (sliceLen o1 : Int) - (sliceLen o2 : Int) ≠ 0 →
      DeepCompare [] env heap (fuel + 1) (some (.vSlice et o1)) (some (.vSlice et o2))
        = .ok ((sliceLen o1 : Int) - (sliceLen o2 : Int))) ∧
    (mapNilOrEmpty m1 ≠ mapNilOrEmpty m2 →
      DeepCompare [] env heap (fuel + 1) (some (.vMap kt vt m1)) (some (.vMap kt vt m2)) = .ok 0) ∧
    (DeepCompare [] env heap (fuel + 1) (some (.vMap kt vt none))
      (some (.vMap kt vt (some (e, [])))) = .ok 0) ∧
    (mapNilOrEmpty m1 = false → mapNilOrEmpty m2 = false →
      (mapLen m1 : Int) - (mapLen m2 : Int) ≠ 0 →
      DeepCompare [] env heap (fuel + 1) (some (.vMap kt vt m1)) (some (.vMap kt vt m2))
        = .ok ((mapLen m1 : Int) - (mapLen m2 : Int))) :=
  ⟨fun h => c5_slice_one_empty env heap fuel et o1 o2 h,
   c5_slice_nil_vs_empty env heap fuel et d,
   fun h1 h2 h3 => c5_slice_len env heap fuel et o1 o2 h1 h2 h3,
   fun h => c5_map_one_empty env heap fuel kt vt m1 m2 h,
   c5_map_nil_vs_empty env heap fuel kt vt e,
   fun h1 h2 h3 => c5_map_len env heap fuel kt vt m1 m2 h1 h2 h3⟩

/-- C5 witness: concrete instances of all six conjuncts — an empty slice
versus a one-element slice reports equal, nil versus empty is equal, two
non-empty slices order by length, and likewise for maps. -/
theorem c5_nil_empty_equivalence_witness :
    DeepCompare [] envEmpty [] 5 (some (.vSlice .int (some (3, []))))
      (some (.vSlice .int (some (4, [.vInt 1])))) = .ok 0 ∧
    DeepCompare [] envEmpty [] 5 (some (.vSlice .int none))
      (some (.vSlice .int (some (3, [])))) = .ok 0 ∧
    DeepCompare [] envEmpty [] 5 (some (.vSlice .int (some (3, [.vInt 1, .vInt 2]))))
      (some (.vSlice .int (some (4, [.vInt 1])))) = .ok 1 ∧
    DeepCompare [] envEmpty [] 5 (some (.vMap .int .int (some (3, []))))
      (some (.vMap .int .int (some (4, [(.vInt 1, .vInt 1)])))) = .ok 0 ∧
    DeepCompare [] envEmpty [] 5 (some (.vMap .int .int none))
      (some (.vMap .int .int (some (3, [])))) = .ok 0 ∧
    DeepCompare [] envEmpty [] 5 (some (.vMap .int .int (some (3, [(.vInt 1, .vInt 1)]))))
      (some (.vMap .int .int (some (4, [(.vInt 1, .vInt 1), (.vInt 2, .vInt 2)])))) = .ok (-1) := by
  obtain ⟨h1, h2, _, _, _, _⟩ := c5_nil_empty_equivalence envEmpty [] 4 .int .int .int
    (some (3, [])) (some (4, [.vInt 1])) (some (3, [])) (some (4, [(.vInt 1, .vInt 1)])) 3 3
  obtain ⟨_, _, h3, h4, h5, h6⟩ := c5_nil_empty_equivalence envEmpty [] 4 .int .int .int
    (some (3, [.vInt 1, .vInt 2])) (some (4, [.vInt 1]))
    (some (3, [(.vInt 1, .vInt 1)])) (some (4, [(.vInt 1, .vInt 1), (.vInt 2, .vInt 2)])) 3 3
  obtain ⟨_, _, _, h4b, _, _⟩ := c5_nil_empty_equivalence envEmpty [] 4 .int .int .int
    (some (3, [])) (some (4, [.vInt 1]))
    (some (3, [])) (some (4, [(.vInt 1, .vInt 1)])) 3 3
  exact ⟨h1 (by decide), h2, h3 (by decide) (by decide) (by decide),
    h4b (by decide), h5, h6 (by decide) (by decide) (by decide)⟩

/-- A well-formed candidate comparison function on ints. -/
def goodCand : Candidate := ⟨true, [.int, .int], [.int], fun _ _ => 0⟩

/-- A candidate that is not a function at all. -/
def badCand : Candidate := ⟨false, [], [], fun _ _ => 0⟩

/-- C8 counterexample: with a good candidate followed by a failing one, the
claim says `NewComparisons` returns the registry populated with the good
candidate together with the error; the code returns no registry at all (Go
nil), even though the receiver-level batch registration did retain the
partial registration. -/
theorem c8_counterexample_new_comparisons_nil :
    (NewComparisons [goodCand, badCand]).1 = none ∧
    (NewComparisons [goodCand, badCand]).2 = some .notFunc ∧
    (AddFuncs [] [goodCand, badCand]).1 = [(.int, goodCand.fn)] :=
  ⟨rfl, rfl, rfl⟩

/-- C8 witness: the batch behaviour at the concrete two-candidate list. -/
theorem c8_batch_registration_amended_witness :
    AddFuncs [] [goodCand, badCand] = (regAll [] [goodCand], some .notFunc) ∧
    NewComparisons [goodCand, badCand] = (none, some .notFunc) ∧
    NewComparisonsOrDie [goodCand, badCand] = .error .notFunc :=
  c8_batch_registration_amended .notFunc [] [goodCand] badCand []
    (by intro f hf
        cases hf with
        | head => rfl
        | tail _ h2 => cases h2) rfl

/-- C9 witness: the good candidate registers under its parameter type and
the non-function candidate yields the distinct not-a-function error. -/
theorem c9_add_func_validation_witness :
    AddFunc [] goodCand = (updateC [] .int goodCand.fn, none) ∧
    (AddFunc [] badCand).2 = some .notFunc :=
  ⟨(c9_add_func_validation [] goodCand).2.1 rfl,
   (c9_add_func_validation [] badCand).2.2.2.1 rfl⟩

/-- Entries of the first concrete map of the C10 witness. -/
def c10es1 : List (Val × Val) := [(.vInt 1, .vInt 1), (.vInt 2, .vInt 5)]

/-- Entries of the second concrete map of the C10 witness: same length,
shares key 1 with an equal value, lacks key 2. -/
def c10es2 : List (Val × Val) := [(.vInt 1, .vInt 1), (.vInt 3, .vInt 5)]

/-- C10 witness: the map owning the extra key orders strictly greater. -/
theorem c10_map_missing_key_positive_witness :
    DeepCompare [] envEmpty [] 4 (some (.vMap .int .int (some (7, c10es1))))
      (some (.vMap .int .int (some (8, c10es2)))) = .ok 1 :=
  c10_map_missing_key_positive envEmpty [] .int .int 7 8 c10es1 c10es2 3
    rfl (List.cons_ne_nil _ _) rfl (by decide)
    (by decide)
    (by intro p hp
        cases hp with
        | head => exact Or.inr rfl
        | tail _ h2 =>
          cases h2 with
          | head => exact Or.inl rfl
          | tail _ h3 => cases h3)
    ⟨(.vInt 2, .vInt 5), List.Mem.tail _ (List.Mem.head _), rfl⟩

theorem allZero_vFind (V : Visited) (k : visit) (r : Int)
    (hV : allZero V = true) (h : vFind V k = some r) : r = 0 := by
  induction V with
  | nil => simp [vFind] at h
  | cons p rest ih =>
    obtain ⟨k0, r0⟩ := p
    simp only [allZero, Bool.and_eq_true, decide_eq_true_eq] at hV
    simp only [vFind] at h
    by_cases hk : k0 = k
    · rw [if_pos hk] at h
      cases h
      exact hV.1
    · rw [if_neg hk] at h
      exact ih hV.2 h

theorem allZero_vInsert (V : Visited) (k : visit) (r : Int)
    (hV : allZero V = true) (hr : r = 0) : allZero (vInsert V k r) = true := by
  induction V with
  | nil => simp [vInsert, allZero, hr]
  | cons p rest ih =>
    obtain ⟨k0, r0⟩ := p
    simp only [allZero, Bool.and_eq_true, decide_eq_true_eq] at hV
    simp only [vInsert]
    by_cases hk : k0 = k
    · simp [hk, allZero, hr, hV.2]
    · simp [hk, allZero, hV.1, ih hV.2]

theorem usefulPanic_ok_iff (t : Ty) (x : Res) (p : Int × Visited) :
    usefulPanic t x = .ok p ↔ x = .ok p := by
  cases x with
  | ok q => simp [usefulPanic]
  | error e => cases e <;> simp [usefulPanic]

theorem elemPairs_swap (rv1 rv2 : RVal) :
    ∀ (es1 es2 : List Val) (i : Nat),
      elemPairs rv2 rv1 es2 es1 i = (elemPairs rv1 rv2 es1 es2 i).map Prod.swap := by
  intro es1
  induction es1 with
  | nil => intro es2 i; cases es2 <;> simp [elemPairs]
  | cons v vs ih =>
    intro es2 i
    cases es2 with
    | nil => simp [elemPairs]
    | cons w ws => simp [elemPairs, ih, Prod.swap]

theorem fieldPairs_swap (rv1 rv2 : RVal) :
    ∀ (fs1 fs2 : List Val) (flags : List (Bool × Ty)) (i : Nat),
      fieldPairs rv2 rv1 fs2 fs1 flags i = (fieldPairs rv1 rv2 fs1 fs2 flags i).map Prod.swap := by
  intro fs1
  induction fs1 with
  | nil => intro fs2 flags i; cases fs2 <;> cases flags <;> simp [fieldPairs]
  | cons v vs ih =>
    intro fs2 flags i
    cases fs2 with
    | nil => cases flags <;> simp [fieldPairs]
    | cons w ws =>
      cases flags with
      | nil => simp [fieldPairs]
      | cons fl tf =>
        obtain ⟨ex, ty⟩ := fl
        simp [fieldPairs, ih, Prod.swap]

theorem slicePairs_swap (ro1 ro2 : Bool) (d1 d2 : Nat) :
    ∀ (es1 es2 : List Val) (i : Nat),
      slicePairs ro2 ro1 d2 d1 es2 es1 i = (slicePairs ro1 ro2 d1 d2 es1 es2 i).map Prod.swap := by
  intro es1
  induction es1 with
  | nil => intro es2 i; cases es2 <;> simp [slicePairs]
  | cons v vs ih =>
    intro es2 i
    cases es2 with
    | nil => simp [slicePairs]
    | cons w ws => simp [slicePairs, ih, Prod.swap]

theorem elemPairs_mapFree (rv1 rv2 : RVal) :
    ∀ (es1 es2 : List Val) (i : Nat) (p : RVal × RVal),
      p ∈ elemPairs rv1 rv2 es1 es2 i → mapFreeL es1 = true → mapFreeL es2 = true →
      mapFree p.1.val = true ∧ mapFree p.2.val = true := by
  intro es1
  induction es1 with
  | nil => intro es2 i p hp; cases es2 <;> simp [elemPairs] at hp
  | cons v vs ih =>
    intro es2 i p hp h1 h2
    cases es2 with
    | nil => simp [elemPairs] at hp
    | cons w ws =>
      simp only [mapFreeL, Bool.and_eq_true] at h1 h2
      simp only [elemPairs, List.mem_cons] at hp
      rcases hp with hp | hp
      · subst hp
        exact ⟨h1.1, h2.1⟩
      · exact ih ws (i + 1) p hp h1.2 h2.2

theorem fieldPairs_mapFree (rv1 rv2 : RVal) :
    ∀ (fs1 fs2 : List Val) (flags : List (Bool × Ty)) (i : Nat) (p : RVal × RVal),
      p ∈ fieldPairs rv1 rv2 fs1 fs2 flags i → mapFreeL fs1 = true → mapFreeL fs2 = true →
      mapFree p.1.val = true ∧ mapFree p.2.val = true := by
  intro fs1
  induction fs1 with
  | nil => intro fs2 flags i p hp; cases fs2 <;> cases flags <;> simp [fieldPairs] at hp
  | cons v vs ih =>
    intro fs2 flags i p hp h1 h2
    cases fs2 with
    | nil => cases flags <;> simp [fieldPairs] at hp
    | cons w ws =>
      cases flags with
      | nil => simp [fieldPairs] at hp
      | cons fl tf =>
        obtain ⟨ex, ty⟩ := fl
        simp only [mapFreeL, Bool.and_eq_true] at h1 h2
        simp only [fieldPairs, List.mem_cons] at hp
        rcases hp with hp | hp
        · subst hp
          exact ⟨h1.1, h2.1⟩
        · exact ih ws tf (i + 1) p hp h1.2 h2.2

theorem slicePairs_mapFree (ro1 ro2 : Bool) (d1 d2 : Nat) :
    ∀ (es1 es2 : List Val) (i : Nat) (p : RVal × RVal),
      p ∈ slicePairs ro1 ro2 d1 d2 es1 es2 i → mapFreeL es1 = true → mapFreeL es2 = true →
      mapFree p.1.val = true ∧ mapFree p.2.val = true := by
  intro es1
  induction es1 with
  | nil => intro es2 i p hp; cases es2 <;> simp [slicePairs] at hp
  | cons v vs ih =>
    intro es2 i p hp h1 h2
    cases es2 with
    | nil => simp [slicePairs] at hp
    | cons w ws =>
      simp only [mapFreeL, Bool.and_eq_true] at h1 h2
      simp only [slicePairs, List.mem_cons] at hp
      rcases hp with hp | hp
      · subst hp
        exact ⟨h1.1, h2.1⟩
      · exact ih ws (i + 1) p hp h1.2 h2.2

/-- The mirror property of a one-step comparator: swapping the operands
negates an ok signal and produces the same visited set, which stays
all-zero whenever the signal is zero. -/
def MirrorFn (g : Cmp) : Prop :=
  ∀ (rv1 rv2 : RVal) (V : Visited) (r : Int) (W : Visited),
    mapFree rv1.val = true → mapFree rv2.val = true → allZero V = true →
    g rv1 rv2 V = .ok (r, W) → g rv2 rv1 V = .ok (-r, W) ∧ (r = 0 → allZero W = true)

theorem mirrorCompareList (g : Cmp) (hg : MirrorFn g) :
    ∀ (ps : List (RVal × RVal)) (V : Visited) (r : Int) (W : Visited),
      (∀ p ∈ ps, mapFree p.1.val = true ∧ mapFree p.2.val = true) → allZero V = true →
      compareListWith g ps V = .ok (r, W) →
      compareListWith g (ps.map Prod.swap) V = .ok (-r, W) ∧ (r = 0 → allZero W = true) := by
  intro ps
  induction ps with
  | nil =>
    intro V r W _ hV hok
    simp only [compareListWith] at hok
    cases hok
    refine ⟨by simp [compareListWith], fun _ => hV⟩
  | cons p rest ih =>
    obtain ⟨x, y⟩ := p
    intro V r W hmf hV hok
    simp only [compareListWith, List.map_cons, Prod.swap] at hok ⊢
    cases hxy : g x y V with
    | error e => rw [hxy] at hok; cases hok
    | ok q =>
      obtain ⟨r0, W0⟩ := q
      rw [hxy] at hok
      obtain ⟨hmir, hz⟩ := hg x y V r0 W0 (hmf (x, y) (by simp)).1 (hmf (x, y) (by simp)).2 hV hxy
      rw [hmir]
      by_cases hr0 : r0 = 0
      · subst hr0
        simp only [if_pos rfl, neg_zero] at hok ⊢
        exact ih W0 r W (fun q hq => hmf q (by simp [hq])) (hz rfl) hok
      · have hok2 : r0 = r ∧ W0 = W := by
          simpa [hr0] using hok
        obtain ⟨rfl, rfl⟩ := hok2
        constructor
        · simp [hr0, neg_eq_zero]
        · intro h
          exact absurd h hr0

theorem ifaceElem_mapFree (ro : Bool) (o : Option Val)
    (h : mapFree (.vIface o) = true) : mapFree (ifaceElem ro o).val = true := by
  cases o with
  | none => rfl
  | some w => simpa [ifaceElem, mapFree] using h

theorem ptrElem_mapFree (heap : Heap) (hmf : heapMapFree heap = true)
    (ro : Bool) (o : Option Nat) : mapFree (ptrElem heap ro o).val = true := by
  cases o with
  | none => rfl
  | some a => simpa [ptrElem] using mapFree_heapAt heap hmf a

theorem sliceElems_mapFree (t : Ty) (o : Option (Nat × List Val))
    (h : mapFree (.vSlice t o) = true) : mapFreeL (sliceElems o) = true := by
  cases o with
  | none => rfl
  | some p =>
    obtain ⟨d, es⟩ := p
    simpa [sliceElems, mapFree] using h

theorem mirrorDispatch (env : StructEnv) (heap : Heap) (g : Cmp) (hg : MirrorFn g)
    (hmf : heapMapFree heap = true) :
    ∀ (rv1 rv2 : RVal) (V : Visited) (r : Int) (W : Visited),
      mapFree rv1.val = true → mapFree rv2.val = true →
      typeOf rv1.val = typeOf rv2.val → allZero V = true →
      dispatchCompare env heap g rv1 rv2 V = .ok (r, W) →
      dispatchCompare env heap g rv2 rv1 V = .ok (-r, W) ∧ (r = 0 → allZero W = true) := by
  intro rv1 rv2 V r W h1 h2 ht hV hok
  obtain ⟨v1, a1, ro1⟩ := rv1
  obtain ⟨v2, a2, ro2⟩ := rv2
  cases v1 <;> cases v2
  case vInt.vInt i j =>
    simp only [dispatchCompare, Except.ok.injEq, Prod.mk.injEq] at hok
    obtain ⟨rfl, rfl⟩ := hok
    refine ⟨?_, fun _ => hV⟩
    show Except.ok (compareInt64 j i, V) = _
    rw [compareInt64_anti]
  case vUint.vUint i j =>
    simp only [dispatchCompare, Except.ok.injEq, Prod.mk.injEq] at hok
    obtain ⟨rfl, rfl⟩ := hok
    refine ⟨?_, fun _ => hV⟩
    show Except.ok (compareUInt64 j i, V) = _
    rw [compareUInt64_anti]
  case vBool.vBool i j =>
    simp only [dispatchCompare, Except.ok.injEq, Prod.mk.injEq] at hok
    obtain ⟨rfl, rfl⟩ := hok
    refine ⟨?_, fun _ => hV⟩
    show Except.ok (compareBool j i, V) = _
    rw [compareBool_anti]
  case vStr.vStr i j =>
    simp only [dispatchCompare, Except.ok.injEq, Prod.mk.injEq] at hok
    obtain ⟨rfl, rfl⟩ := hok
    refine ⟨?_, fun _ => hV⟩
    show Except.ok (stringsCompare j i, V) = _
    rw [stringsCompare_anti]
  case vMap.vMap k1 e1 o1 k2 e2 o2 =>
    simp [mapFree] at h1
  case vPtr.vPtr t1 p1 t2 p2 =>
    simp only [dispatchCompare] at hok ⊢
    exact hg _ _ V r W (ptrElem_mapFree heap hmf ro1 p1) (ptrElem_mapFree heap hmf ro2 p2) hV hok
  case vFn.vFn s1 o1 s2 o2 =>
    simp only [dispatchCompare] at hok ⊢
    by_cases hb : (o1.isSome && o2.isSome) = true
    · rw [if_pos hb] at hok
      cases hok
    · rw [if_neg hb] at hok
      simp only [Except.ok.injEq, Prod.mk.injEq] at hok
      obtain ⟨rfl, rfl⟩ := hok
      have hb2 : ¬(o2.isSome && o1.isSome) = true := by
        rw [Bool.and_comm]; exact hb
      refine ⟨?_, fun _ => hV⟩
      rw [if_neg hb2, compareBool_anti]
  case vCplx.vCplx x1 y1 x2 y2 =>
    simp only [dispatchCompare] at hok ⊢
    by_cases hro : (ro1 || ro2) = true
    · rw [if_pos hro] at hok
      cases hok
    · rw [if_neg hro] at hok
      by_cases hveq : valEqB (.vCplx x1 y1) (.vCplx x2 y2) = true
      · have hc : compareInterface (.vCplx x1 y1) (.vCplx x2 y2) = .ok 0 := by
          simp [compareInterface, hveq]
        rw [hc] at hok
        simp only [Except.ok.injEq, Prod.mk.injEq] at hok
        obtain ⟨rfl, rfl⟩ := hok
        have heqs : x1 = x2 ∧ y1 = y2 := by
          have hv2 : (x1 == x2 && y1 == y2) = true := hveq
          simpa using hv2
        obtain ⟨rfl, rfl⟩ := heqs
        rw [Bool.or_comm] at hro
        rw [if_neg hro]
        have hc2 : compareInterface (.vCplx x1 y1) (.vCplx x1 y1) = .ok 0 := by
          have : valEqB (.vCplx x1 y1) (.vCplx x1 y1) = true := by
            show (x1 == x1 && y1 == y1) = true
            simp
          simp [compareInterface, this]
        rw [hc2]
        exact ⟨by simp, fun _ => hV⟩
      · have hc : compareInterface (.vCplx x1 y1) (.vCplx x2 y2)
            = .error (.uncomparable (typeOf (.vCplx x1 y1))) := by
          simp [compareInterface, hveq]
        rw [hc] at hok
        cases hok
  case vIface.vIface o1 o2 =>
    simp only [dispatchCompare] at hok ⊢
    by_cases hr0 : compareBool o1.isSome o2.isSome = 0
    · rw [if_neg (by simpa using hr0)] at hok
      rw [if_neg (by rw [compareBool_anti, hr0]; simp)]
      obtain ⟨hmir, hz⟩ := hg (ifaceElem ro1 o1) (ifaceElem ro2 o2) V r W
        (ifaceElem_mapFree ro1 o1 h1) (ifaceElem_mapFree ro2 o2 h2) hV hok
      exact ⟨hmir, hz⟩
    · rw [if_pos hr0] at hok
      simp only [Except.ok.injEq, Prod.mk.injEq] at hok
      obtain ⟨rfl, rfl⟩ := hok
      rw [if_pos (by rw [compareBool_anti]; simpa using hr0), compareBool_anti]
      exact ⟨rfl, fun h => absurd h hr0⟩
  case vArray.vArray t1 es1 t2 es2 =>
    simp only [dispatchCompare] at hok ⊢
    rw [elemPairs_swap]
    refine mirrorCompareList g hg _ V r W ?_ hV hok
    intro p hp
    exact elemPairs_mapFree _ _ es1 es2 0 p hp (by simpa [mapFree] using h1)
      (by simpa [mapFree] using h2)
  case vStruct.vStruct n1 fs1 n2 fs2 =>
    have hn : n1 = n2 := by simpa [typeOf] using ht
    subst hn
    simp only [dispatchCompare] at hok ⊢
    rw [fieldPairs_swap]
    refine mirrorCompareList g hg _ V r W ?_ hV hok
    intro p hp
    exact fieldPairs_mapFree _ _ fs1 fs2 (env n1) 0 p hp (by simpa [mapFree] using h1)
      (by simpa [mapFree] using h2)
  case vSlice.vSlice t1 o1 t2 o2 =>
    simp only [dispatchCompare] at hok ⊢
    by_cases hc1 : sliceNilOrEmpty o1 ≠ sliceNilOrEmpty o2
    · rw [if_pos hc1] at hok
      simp only [Except.ok.injEq, Prod.mk.injEq] at hok
      obtain ⟨rfl, rfl⟩ := hok
      rw [if_pos (Ne.symm hc1)]
      exact ⟨by simp, fun _ => hV⟩
    · rw [if_neg hc1] at hok
      have hc1s : ¬sliceNilOrEmpty o2 ≠ sliceNilOrEmpty o1 := fun h => hc1 (Ne.symm h)
      by_cases hc2 : (sliceLen o1 : Int) - (sliceLen o2 : Int) ≠ 0
      · rw [if_pos hc2] at hok
        simp only [Except.ok.injEq, Prod.mk.injEq] at hok
        obtain ⟨rfl, rfl⟩ := hok
        rw [if_neg hc1s, if_pos (by omega : (sliceLen o2 : Int) - (sliceLen o1 : Int) ≠ 0)]
        exact ⟨by rw [neg_sub], fun h => absurd h hc2⟩
      · rw [if_neg hc2] at hok
        by_cases hc3 : slicePtr o1 = slicePtr o2
        · rw [if_pos hc3] at hok
          simp only [Except.ok.injEq, Prod.mk.injEq] at hok
          obtain ⟨rfl, rfl⟩ := hok
          rw [if_neg hc1s, if_neg (by omega : ¬(sliceLen o2 : Int) - (sliceLen o1 : Int) ≠ 0),
            if_pos hc3.symm]
          exact ⟨by simp, fun _ => hV⟩
        · rw [if_neg hc3] at hok
          rw [if_neg hc1s, if_neg (by omega : ¬(sliceLen o2 : Int) - (sliceLen o1 : Int) ≠ 0),
            if_neg (fun h => hc3 h.symm)]
          rw [slicePairs_swap]
          refine mirrorCompareList g hg _ V r W ?_ hV hok
          intro p hp
          exact slicePairs_mapFree _ _ _ _ (sliceElems o1) (sliceElems o2) 0 p hp
            (sliceElems_mapFree t1 o1 h1) (sliceElems_mapFree t2 o2 h2)
  all_goals simp [dispatchCompare] at hok

theorem mirrorHardStep (env : StructEnv) (heap : Heap) (g : Cmp) (hg : MirrorFn g)
    (hmf : heapMapFree heap = true) (t : Ty) (x1 x2 : Addr) (rv1 rv2 : RVal)
    (V : Visited) (r : Int) (W : Visited)
    (h1 : mapFree rv1.val = true) (h2 : mapFree rv2.val = true)
    (ht : typeOf rv1.val = typeOf rv2.val) (hV : allZero V = true)
    (hok : hardStep env heap g t x1 x2 rv1 rv2 V = .ok (r, W)) :
    hardStep env heap g t x2 x1 rv2 rv1 V = .ok (-r, W) ∧ (r = 0 → allZero W = true) := by
  simp only [hardStep] at hok ⊢
  by_cases hx : x1 = x2
  · subst hx
    rw [if_pos rfl] at hok
    simp only [Except.ok.injEq, Prod.mk.injEq] at hok
    obtain ⟨rfl, rfl⟩ := hok
    refine ⟨?_, fun _ => hV⟩
    rw [if_pos rfl]
    simp
  · by_cases hgt : lexGt x1 x2 = true
    · have hgt2 : lexGt x2 x1 = false := lexGt_asymm x1 x2 hgt
      simp only [hgt, hgt2, Bool.false_eq_true, if_true, if_false] at hok ⊢
      rw [if_neg (fun h => hx h.symm)] at hok ⊢
      cases hf : vFind V ⟨x2, x1, t⟩ with
      | some r0 =>
        have hr0 : r0 = 0 := allZero_vFind V _ r0 hV hf
        subst hr0
        rw [hf] at hok
        simp only [Except.ok.injEq, Prod.mk.injEq] at hok
        obtain ⟨rfl, rfl⟩ := hok
        exact ⟨by simp, fun _ => hV⟩
      | none =>
        rw [hf] at hok
        cases hd : dispatchCompare env heap g rv1 rv2 V with
        | error e => rw [hd] at hok; cases hok
        | ok q =>
          obtain ⟨r0, vis⟩ := q
          obtain ⟨hmir, hz⟩ := mirrorDispatch env heap g hg hmf rv1 rv2 V r0 vis
            h1 h2 ht hV hd
          rw [hd] at hok
          rw [hmir]
          simp only [Except.ok.injEq, Prod.mk.injEq] at hok
          obtain ⟨rfl, rfl⟩ := hok
          refine ⟨by simp, fun hr => ?_⟩
          exact allZero_vInsert vis _ _ (hz (by omega)) (by omega)
    · have hgt2 : lexGt x2 x1 = true := by
        cases hq : lexGt x2 x1 with
        | true => rfl
        | false =>
          exact absurd (lexGt_connex x1 x2 (by simpa using hgt) hq) hx
      simp only [hgt, hgt2, Bool.false_eq_true, if_true, if_false] at hok ⊢
      rw [if_neg hx] at hok ⊢
      cases hf : vFind V ⟨x1, x2, t⟩ with
      | some r0 =>
        have hr0 : r0 = 0 := allZero_vFind V _ r0 hV hf
        subst hr0
        rw [hf] at hok
        simp only [Except.ok.injEq, Prod.mk.injEq] at hok
        obtain ⟨rfl, rfl⟩ := hok
        exact ⟨by simp, fun _ => hV⟩
      | none =>
        rw [hf] at hok
        cases hd : dispatchCompare env heap g rv1 rv2 V with
        | error e => rw [hd] at hok; cases hok
        | ok q =>
          obtain ⟨r0, vis⟩ := q
          obtain ⟨hmir, hz⟩ := mirrorDispatch env heap g hg hmf rv1 rv2 V r0 vis
            h1 h2 ht hV hd
          rw [hd] at hok
          rw [hmir]
          simp only [Except.ok.injEq, Prod.mk.injEq] at hok
          obtain ⟨rfl, rfl⟩ := hok
          refine ⟨by simp, fun hr => ?_⟩
          exact allZero_vInsert vis _ _ (hz (by omega)) (by omega)

theorem mirrorStep (env : StructEnv) (heap : Heap) (g : Cmp) (hg : MirrorFn g)
    (hmf : heapMapFree heap = true) :
    ∀ (rv1 rv2 : RVal) (V : Visited) (r : Int) (W : Visited),
      mapFree rv1.val = true → mapFree rv2.val = true → allZero V = true →
      stepCompare [] env heap g rv1 rv2 V = .ok (r, W) →
      stepCompare [] env heap g rv2 rv1 V = .ok (-r, W) ∧ (r = 0 → allZero W = true) := by
  intro rv1 rv2 V r W h1 h2 hV hok
  simp only [stepCompare, lookupC] at hok ⊢
  by_cases hv : (!isValid rv1.val || !isValid rv2.val) = true
  · rw [if_pos hv] at hok
    rw [if_pos (by rw [Bool.or_comm]; exact hv)]
    simp only [Except.ok.injEq, Prod.mk.injEq] at hok
    obtain ⟨rfl, rfl⟩ := hok
    rw [compareBool_anti]
    exact ⟨rfl, fun _ => hV⟩
  · rw [if_neg hv] at hok
    rw [if_neg (by rw [Bool.or_comm]; exact hv)]
    by_cases ht : typeOf rv1.val = typeOf rv2.val
    · rw [if_pos ht] at hok
      rw [if_pos ht.symm, ← ht]
      cases hh : hard (typeOf rv1.val) with
      | false =>
        rw [hh] at hok
        exact mirrorDispatch env heap g hg hmf rv1 rv2 V r W h1 h2 ht hV hok
      | true =>
        rw [hh] at hok
        cases ha1 : rv1.addr with
        | none =>
          rw [ha1] at hok
          cases ha2 : rv2.addr with
          | none =>
            rw [ha2] at hok
            exact mirrorDispatch env heap g hg hmf rv1 rv2 V r W h1 h2 ht hV hok
          | some x2 =>
            rw [ha2] at hok
            exact mirrorDispatch env heap g hg hmf rv1 rv2 V r W h1 h2 ht hV hok
        | some x1 =>
          rw [ha1] at hok
          cases ha2 : rv2.addr with
          | none =>
            rw [ha2] at hok
            exact mirrorDispatch env heap g hg hmf rv1 rv2 V r W h1 h2 ht hV hok
          | some x2 =>
            rw [ha2] at hok
            have hok2 : hardStep env heap g (typeOf rv1.val) x1 x2 rv1 rv2 V
                = .ok (r, W) := hok
            exact mirrorHardStep env heap g hg hmf (typeOf rv1.val) x1 x2 rv1 rv2 V r W
              h1 h2 ht hV hok2
    · rw [if_neg ht] at hok
      cases hok


theorem mirrorDvc (env : StructEnv) (heap : Heap) (hmf : heapMapFree heap = true) :
    ∀ (fuel : Nat) (rv1 rv2 : RVal) (V : Visited) (r : Int) (W : Visited),
      mapFree rv1.val = true → mapFree rv2.val = true → allZero V = true →
      deepValueCompare [] env heap fuel rv1 rv2 V = .ok (r, W) →
      deepValueCompare [] env heap fuel rv2 rv1 V = .ok (-r, W) ∧
        (r = 0 → allZero W = true) := by
  intro fuel
  induction fuel with
  | zero =>
    intro rv1 rv2 V r W _ _ _ hok
    simp [deepValueCompare] at hok
  | succ n ih =>
    intro rv1 rv2 V r W h1 h2 hV hok
    rw [deepValueCompare_succ] at hok
    rw [usefulPanic_ok_iff] at hok
    have hg : MirrorFn (fun a b v => deepValueCompare [] env heap n a b v) := by
      intro a b V0 r0 W0 ha hb hV0 h
      exact ih a b V0 r0 W0 ha hb hV0 h
    obtain ⟨hmir, hz⟩ := mirrorStep env heap _ hg hmf rv1 rv2 V r W h1 h2 hV hok
    refine ⟨?_, hz⟩
    rw [deepValueCompare_succ, usefulPanic_ok_iff]
    exact hmir

/-- C4: amended antisymmetry.  With an empty registry, over a map-free heap,
for any two map-free values accepted by `DeepCompare`, swapping the operands
negates the result: `DeepCompare(a,b) = ok r` implies
`DeepCompare(b,a) = ok (-r)`.  (Key-value containers are excluded: map
comparison iterates the first operand's keys, which breaks this law, as the
recorded counterexample shows.) -/
theorem c4_antisymmetry_amended (env : StructEnv) (heap : Heap) (fuel : Nat)
    (v1 v2 : Val) (r : Int)
    (hmf : heapMapFree heap = true)
    (h1 : mapFree v1 = true) (h2 : mapFree v2 = true)
    (hok : DeepCompare [] env heap fuel (some v1) (some v2) = .ok r) :
    DeepCompare [] env heap fuel (some v2) (some v1) = .ok (-r) := by
  simp only [DeepCompare, Option.isNone_some] at hok ⊢
  rw [if_neg (by decide : ¬(compareBool false false ≠ 0))] at hok ⊢
  by_cases ht : typeOf v1 = typeOf v2
  · rw [if_pos ht] at hok
    rw [if_pos ht.symm]
    cases hd : deepValueCompare [] env heap fuel ⟨v1, none, false⟩ ⟨v2, none, false⟩ [] with
    | error e => rw [hd] at hok; cases hok
    | ok q =>
      obtain ⟨r0, W⟩ := q
      rw [hd] at hok
      simp only [Except.map, Except.ok.injEq] at hok
      subst hok
      obtain ⟨hmir, _⟩ := mirrorDvc env heap hmf fuel ⟨v1, none, false⟩ ⟨v2, none, false⟩
        [] r0 W h1 h2 rfl hd
      rw [hmir]
      simp [Except.map]
  · rw [if_neg ht] at hok
    cases hok

theorem c4_antisymmetry_amended_witness :
    heapMapFree ([] : Heap) = true ∧ mapFree (Val.vInt 1) = true ∧
    mapFree (Val.vInt 2) = true ∧
    DeepCompare [] envEmpty [] 3 (some (.vInt 1)) (some (.vInt 2)) = .ok (-1) ∧
    DeepCompare [] envEmpty [] 3 (some (.vInt 2)) (some (.vInt 1)) = .ok (-(-1)) :=
  ⟨rfl, rfl, rfl, rfl,
    c4_antisymmetry_amended envEmpty [] 3 (.vInt 1) (.vInt 2) (-1) rfl rfl rfl rfl⟩

end Reflcompare
